import Mathlib

/-!
Shallow embedding of the Byzantine-robust aggregation engine
(src/ai/byzantine_robust_aggregation.py) and verification of the frozen
claims about it.

Modelling conventions:
- Python floats are idealised as exact rationals; values produced by
  numpy square roots (distances, norms) live in the reals.
- A numpy tensor is a flattened list of rationals; shapes are identical
  across participants for a layer (spec section 3 invariant), so
  element-wise operations are positional.
- A Python dict is an association list in insertion order with unique
  keys; dict deletion and in-place value update preserve order, and a
  fresh key is appended at the end.
- Exceptions are modelled with the Except monad; the wall-clock
  computation_time field carries no algorithmic content and is omitted.
-/

namespace ByzantineRobust

/-- A flattened numpy tensor of (idealised) floats. -/
abbrev Tensor := List ℚ

/-- A model update: mapping from layer name to tensor, in insertion order. -/
abbrev Update := List (String × Tensor)

/-- One round of updates: participant id to update, in insertion order. -/
abbrev Round := List (String × Update)

/-- The process-wide reputation table (participant id to score). -/
abbrev RepTable := List (String × ℚ)

/-- Configuration of ByzantineRobustAggregator (constructor defaults). -/
structure AggConfig where
  maxByzantineRatio : ℚ := 3 / 10
  minParticipants : ℕ := 3

/-- The AggregationMethod enum of the source. -/
inductive AggMethod where
  | fedavg
  | krum
  | bulyan
  | coordinateMedian
  | trimmedMean
  | byzantineRobust
deriving DecidableEq, Repr

/-- Typed counterpart of the exceptions the source raises: the
ValueError for too few participants (carrying the required and actual
counts from the message) and the IndexError from indexing an empty
participant list. -/
inductive AggError where
  | insufficientParticipants (required actual : ℕ)
  | indexError
deriving DecidableEq, Repr

/-- The AggregationResult dataclass (computation_time omitted, see above). -/
structure AggregationResult where
  aggregated_weights : Update
  method_used : AggMethod
  participants_used : List String
  participants_excluded : List String
  robustness_score : ℝ

/-- Dict lookup model_updates[p] for a round. -/
def lookupUpdate (r : Round) (p : String) : Option Update :=
  (r.find? (fun q => q.1 = p)).map Prod.snd

/-- Dict lookup update[layer]; defaults to the empty tensor, which is
only reached outside the shared-layer invariant of spec section 3. -/
def lookupTensor (u : Update) (layer : String) : Tensor :=
  ((u.find? (fun q => q.1 = layer)).map Prod.snd).getD []

/-- Python enumerate over a list, starting at a given index. -/
def enumIdx : ℕ → List α → List (ℕ × α)
  | _, [] => []
  | n, a :: l => (n, a) :: enumIdx (n + 1) l

/-- Sum over a tensor of the squared element-wise differences
(numpy sum of (m1[layer] - m2[layer]) squared, shapes equal). -/
def sumSqDiff (t1 t2 : Tensor) : ℚ :=
  (List.zipWith (fun a b => (a - b) ^ 2) t1 t2).sum

/-- The squared-distance accumulator of _calculate_distance: the sum
over layers of model1 that are present in model2 of the squared
element-wise differences. -/
def distAcc (m1 m2 : Update) : ℚ :=
  m1.foldl
    (fun acc lw =>
      match m2.find? (fun q => q.1 = lw.1) with
      | some q => acc + sumSqDiff lw.2 q.2
      | none => acc)
    0

/-- Euclidean distance between two model updates (_calculate_distance):
square root of the summed squared differences over shared layers. -/
noncomputable def calculate_distance (m1 m2 : Update) : ℝ :=
  Real.sqrt ((distAcc m1 m2 : ℚ) : ℝ)

/-- Euclidean norm of a single tensor (np.linalg.norm). -/
noncomputable def tensorNorm (t : Tensor) : ℝ :=
  Real.sqrt (((t.map (fun a => a ^ 2)).sum : ℚ) : ℝ)

/-- The default adversary count int(len(model_updates) * max_byzantine_ratio). -/
def defaultF (cfg : AggConfig) (n : ℕ) : ℕ :=
  (Rat.floor ((n : ℚ) * cfg.maxByzantineRatio)).toNat

/-- Arithmetic mean of a list of rationals (np.mean). -/
def meanQ (l : List ℚ) : ℚ := l.sum / l.length

/-- numpy median of a list of rationals: sort ascending, take the middle
element for odd length, the average of the two middle ones for even. -/
def medianQ (l : List ℚ) : ℚ :=
  let s := List.insertionSort (· ≤ ·) l
  let n := s.length
  if n % 2 = 1 then s.getD (n / 2) 0
  else (s.getD (n / 2 - 1) 0 + s.getD (n / 2) 0) / 2

/-- Element-wise median across a list of tensors (np.median along the
participant axis); the empty list is never reached by the source. -/
def coordMedian (ts : List Tensor) : Tensor :=
  match ts with
  | [] => []
  | t0 :: _ => (List.range t0.length).map fun idx => medianQ (ts.map (fun t => t.getD idx 0))

/-- Element-wise arithmetic mean across a list of tensors
(np.mean along the participant axis). -/
def meanTensors (ts : List Tensor) : Tensor :=
  match ts with
  | [] => []
  | t0 :: _ => (List.range t0.length).map fun idx => meanQ (ts.map (fun t => t.getD idx 0))

/-- The private _coordinate_wise_median helper: layer names are read
from the first participant; indexing the first participant of an empty
mapping raises IndexError, modelled as none. -/
def coordinateWiseMedianWeights (updates : Round) : Option Update :=
  match updates with
  | [] => none
  | (_, u0) :: _ =>
      some (u0.map fun lw =>
        (lw.1, coordMedian (updates.map (fun pu => lookupTensor pu.2 lw.1))))

/-- coordinate_wise_median: the public coordinate-wise median
aggregation method. -/
noncomputable def coordinate_wise_median (cfg : AggConfig) (r : Round) :
    Except AggError AggregationResult :=
  if r.length < cfg.minParticipants then
    .error (.insufficientParticipants cfg.minParticipants r.length)
  else
    match coordinateWiseMedianWeights r with
    | none => .error .indexError
    | some w =>
        .ok { aggregated_weights := w
              method_used := .coordinateMedian
              participants_used := r.map Prod.fst
              participants_excluded := []
              robustness_score := ((8 : ℝ) / 10) }

/-- The distance list of participant i inside the Krum scoring loop:
the distance from its update u to every participant at an index other
than i (the i = j self-comparison is skipped). -/
noncomputable def krumDistances (r : Round) (i : ℕ) (u : Update) : List ℝ :=
  ((enumIdx 0 r).filter (fun jp => jp.1 ≠ i)).map (fun jp => calculate_distance u jp.2.2)

/-- The Krum score of participant i with update u: its distances sorted
ascending, the first (n - f - 2) of them summed. -/
noncomputable def krumScoreOf (r : Round) (f i : ℕ) (u : Update) : ℝ :=
  ((List.insertionSort (· ≤ ·) (krumDistances r i u)).take (r.length - f - 2)).sum

/-- The per-participant Krum scores, in participant order. -/
noncomputable def krum_scores (r : Round) (f : ℕ) : List (String × ℝ) :=
  (enumIdx 0 r).map fun ip => (ip.2.1, krumScoreOf r f ip.1 ip.2.2)

/-- Python min(scores, key=scores.get) over a dict in insertion order:
the first entry with the minimal value (a later entry replaces the
current one only when strictly smaller). -/
noncomputable def firstMinBy (scores : List (String × ℝ)) : Option (String × ℝ) :=
  match scores with
  | [] => none
  | s :: rest => some (rest.foldl (fun best q => if q.2 < best.2 then q else best) s)

/-- The _calculate_robustness_score helper: 0 for no scores, 1 when all
scores coincide, otherwise max(0, 1 - std/mean) with population standard
deviation, and 0 when the mean is 0. -/
noncomputable def robustnessFromScores (vals : List ℝ) : ℝ :=
  match vals with
  | [] => 0
  | v :: vs =>
      if vs.foldl max v = vs.foldl min v then 1
      else
        let mean := (v :: vs).sum / (v :: vs).length
        let std := Real.sqrt (((v :: vs).map (fun x => (x - mean) ^ 2)).sum / (v :: vs).length)
        if mean = 0 then 0 else max 0 (1 - std / mean)

/-- krum_aggregation: check the 2f + 3 precondition, score every
participant, select the first minimal-score participant, and return its
update verbatim. -/
noncomputable def krum_aggregation (cfg : AggConfig) (r : Round) (fOpt : Option ℕ) :
    Except AggError AggregationResult :=
  let f := fOpt.getD (defaultF cfg r.length)
  if r.length < 2 * f + 3 then
    .error (.insufficientParticipants (2 * f + 3) r.length)
  else
    match firstMinBy (krum_scores r f) with
    | none => .error .indexError
    | some sel =>
        .ok { aggregated_weights := (lookupUpdate r sel.1).getD []
              method_used := .krum
              participants_used := [sel.1]
              participants_excluded := (r.map Prod.fst).filter (fun p => p ≠ sel.1)
              robustness_score := robustnessFromScores ((krum_scores r f).map Prod.snd) }

/-- Stage 1 of Bulyan: repeatedly run Krum over the remaining pool,
removing each winner, for the given number of iterations, stopping as
soon as the pool drops below 2 * krumF + 3.  The two error arms mirror
unreachable states: the length guard is exactly the Krum precondition,
and a successful Krum always selects exactly one participant. -/
noncomputable def bulyanSelectAux (cfg : AggConfig) (krumF : ℕ) :
    ℕ → Round → List String
  | 0, _ => []
  | n + 1, remaining =>
      if remaining.length < 2 * krumF + 3 then []
      else
        match krum_aggregation cfg remaining (some krumF) with
        | .error _ => []
        | .ok res =>
            match res.participants_used with
            | [] => []
            | sel :: _ =>
                sel :: bulyanSelectAux cfg krumF n (remaining.filter (fun q => q.1 ≠ sel))

/-- bulyan_aggregation: check the 4f + 3 precondition, select via
repeated Krum with inner parameter krumF = n - 2f - 2 for up to n - 2f
iterations, then coordinate-wise-median the selected updates. -/
noncomputable def bulyan_aggregation (cfg : AggConfig) (r : Round) (fOpt : Option ℕ) :
    Except AggError AggregationResult :=
  let f := fOpt.getD (defaultF cfg r.length)
  if r.length < 4 * f + 3 then
    .error (.insufficientParticipants (4 * f + 3) r.length)
  else
    let krumF := r.length - 2 * f - 2
    let selected := bulyanSelectAux cfg krumF (r.length - 2 * f) r
    let selectedUpdates : Round := selected.map (fun p => (p, (lookupUpdate r p).getD []))
    match coordinateWiseMedianWeights selectedUpdates with
    | none => .error .indexError
    | some w =>
        .ok { aggregated_weights := w
              method_used := .bulyan
              participants_used := selected
              participants_excluded := (r.map Prod.fst).filter (fun p => p ∉ selected)
              robustness_score := robustnessFromScores (selected.map (fun _ => (0 : ℝ))) }

/-- Ascending argsort of a list of tensors by Euclidean norm
(np.argsort over the per-tensor norms). -/
noncomputable def argsortByTensorNorm (ws : List Tensor) : List ℕ :=
  List.insertionSort
    (fun i j => tensorNorm (ws.getD i []) ≤ tensorNorm (ws.getD j []))
    (List.range ws.length)

/-- The _trim_and_average helper: plain mean when n_trim is 0, otherwise
sort the tensors of this layer by their own norms, drop n_trim from both
ends of the ranking, and average the remainder. -/
noncomputable def trim_and_average (ws : List Tensor) (nTrim : ℕ) : Tensor :=
  if nTrim = 0 then meanTensors ws
  else
    let sortedIdx := argsortByTensorNorm ws
    let trimmed := (sortedIdx.drop nTrim).take (sortedIdx.length - 2 * nTrim)
    meanTensors (trimmed.map (fun i => ws.getD i []))

/-- trimmed_mean_aggregation: layer names from the first participant;
each layer is trimmed and averaged independently via _trim_and_average. -/
noncomputable def trimmed_mean_aggregation (cfg : AggConfig) (r : Round) (trimRatio : ℚ) :
    Except AggError AggregationResult :=
  if r.length < cfg.minParticipants then
    .error (.insufficientParticipants cfg.minParticipants r.length)
  else
    let nTrim := (Rat.floor ((r.length : ℚ) * trimRatio)).toNat
    match r with
    | [] => .error .indexError
    | (_, u0) :: _ =>
        .ok { aggregated_weights :=
                u0.map (fun lw =>
                  (lw.1, trim_and_average (r.map (fun pu => lookupTensor pu.2 lw.1)) nTrim))
              method_used := .trimmedMean
              participants_used := r.map Prod.fst
              participants_excluded := []
              robustness_score := ((7 : ℝ) / 10) }

/-- Euclidean norm of a whole update: sum of squares over all layers of
all elements, square-rooted. -/
noncomputable def updateNorm (m : Update) : ℝ :=
  Real.sqrt ((m.foldl (fun acc lw => acc + (lw.2.map (fun a => a ^ 2)).sum) 0 : ℚ) : ℝ)

/-- Ascending argsort of the participants of a round by whole-update norm. -/
noncomputable def argsortByUpdateNorm (r : Round) : List ℕ :=
  List.insertionSort
    (fun i j => updateNorm ((r.getD i ("", [])).2) ≤ updateNorm ((r.getD j ("", [])).2))
    (List.range r.length)

/-- Follows the words of the spec for claim C5 (section 4.3), not the
source: the trimmed mean with one ranking by whole-update Euclidean
norm, computed once and applied identically to every layer, dropping
the k lowest-norm and k highest-norm participants and averaging the
rest per layer (plain mean of all participants when k = 0). -/
noncomputable def trimmed_mean_whole_update_norm (cfg : AggConfig) (r : Round)
    (trimRatio : ℚ) : Except AggError AggregationResult :=
  if r.length < cfg.minParticipants then
    .error (.insufficientParticipants cfg.minParticipants r.length)
  else
    let nTrim := (Rat.floor ((r.length : ℚ) * trimRatio)).toNat
    match r with
    | [] => .error .indexError
    | (_, u0) :: _ =>
        let kept : List ℕ :=
          if nTrim = 0 then List.range r.length
          else ((argsortByUpdateNorm r).drop nTrim).take (r.length - 2 * nTrim)
        .ok { aggregated_weights :=
                u0.map (fun lw =>
                  (lw.1, meanTensors (kept.map (fun i => lookupTensor ((r.getD i ("", [])).2) lw.1))))
              method_used := .trimmedMean
              participants_used := r.map Prod.fst
              participants_excluded := []
              robustness_score := ((7 : ℝ) / 10) }

/-- The pairwise distance matrix of _detect_byzantine_participants:
zero diagonal, _calculate_distance off it. -/
noncomputable def distance_matrix (r : Round) : List (List ℝ) :=
  (enumIdx 0 r).map fun ip =>
    (enumIdx 0 r).map fun jp =>
      if ip.1 = jp.1 then 0 else calculate_distance ip.2.2 jp.2.2

/-- Modelled from the spec: np.percentile of an external numeric
library, with the default linear interpolation between the two closest
ranks (rank (n-1) * q / 100). -/
noncomputable def percentileR (xs : List ℝ) (q : ℚ) : ℝ :=
  let s := List.insertionSort (· ≤ ·) xs
  let rank : ℚ := ((s.length : ℚ) - 1) * q / 100
  let i : ℕ := (⌊rank⌋).toNat
  let frac : ℚ := rank - (⌊rank⌋ : ℚ)
  s.getD i 0 + ((frac : ℚ) : ℝ) * (s.getD (i + 1) (s.getD i 0) - s.getD i 0)

/-- Modelled from the spec: np.percentile over rational data, with the
same linear interpolation as percentileR. -/
def percentileQ (xs : List ℚ) (q : ℚ) : ℚ :=
  let s := List.insertionSort (· ≤ ·) xs
  let rank : ℚ := ((s.length : ℚ) - 1) * q / 100
  let i : ℕ := (⌊rank⌋).toNat
  let frac : ℚ := rank - (⌊rank⌋ : ℚ)
  s.getD i 0 + frac * (s.getD (i + 1) (s.getD i 0) - s.getD i 0)

/-- Modelled from the spec: the minimal density primitive of the
external sklearn DBSCAN (spec sections 4.6 and 9) — a row of the
distance matrix is noise when it has fewer than minSamples neighbours
(itself included) within eps. -/
noncomputable def dbscanNoiseIdx (matrix : List (List ℝ)) (eps : ℝ) (minSamples : ℕ) :
    List ℕ :=
  ((enumIdx 0 matrix).filter
    (fun ir => decide ((ir.2.countP (fun d => decide (d ≤ eps))) < minSamples))).map Prod.fst

/-- The clustering part of _detect_byzantine_participants: eps is the
75th percentile of all matrix entries, min_samples is 2, and the noise
rows name the flagged participants. -/
noncomputable def dbscan_flags (r : Round) : List String :=
  let m := distance_matrix r
  (dbscanNoiseIdx m (percentileR m.flatten 75) 2).map (fun i => (r.getD i ("", [])).1)

/-- The reputation part of _detect_byzantine_participants: participants
of the snapshot whose score is strictly below its 20th percentile. -/
def low_reputation_flags (t : RepTable) : List String :=
  (t.filter (fun pr => pr.2 < percentileQ (t.map Prod.snd) 20)).map Prod.fst

/-- _detect_byzantine_participants: empty below 3 participants;
otherwise the clustering flags, fused with the low-reputation flags
when a non-empty snapshot is supplied (a falsy snapshot is skipped),
with duplicates removed (list(set(...))). -/
noncomputable def detect_byzantine (r : Round) (rep : Option RepTable) : List String :=
  if r.length < 3 then []
  else
    let byz := dbscan_flags r
    let withRep :=
      match rep with
      | none => byz
      | some t => if t = [] then byz else byz ++ low_reputation_flags t
    withRep.dedup

/-- The result.participants_excluded.extend(byzantine_participants)
step of the adaptive dispatcher. -/
def extendExcluded (byz : List String) (x : AggregationResult) : AggregationResult :=
  { x with participants_excluded := x.participants_excluded ++ byz }

/-- adaptive_byzantine_robust_aggregation: detect, filter, fall back to
the median over the original round when too few clean participants
remain (returning early, without merging the detector exclusions),
otherwise delegate by the thresholds computed from the original round
size and extend the delegate exclusions with the detected ones. -/
noncomputable def adaptive_byzantine_robust_aggregation (cfg : AggConfig) (r : Round)
    (rep : Option RepTable) : Except AggError AggregationResult :=
  if r.length < cfg.minParticipants then
    .error (.insufficientParticipants cfg.minParticipants r.length)
  else
    let byz := detect_byzantine r rep
    let clean := r.filter (fun pu => pu.1 ∉ byz)
    if clean.length < cfg.minParticipants then coordinate_wise_median cfg r
    else
      let res :=
        if 4 * defaultF cfg r.length + 3 ≤ clean.length then
          bulyan_aggregation cfg clean none
        else if 2 * defaultF cfg r.length + 3 ≤ clean.length then
          krum_aggregation cfg clean none
        else coordinate_wise_median cfg clean
      res.map (extendExcluded byz)

/-- Dict lookup in the reputation table. -/
def lookupRep (t : RepTable) (p : String) : Option ℚ :=
  (t.find? (fun q => q.1 = p)).map Prod.snd

/-- Dict assignment table[p] = v: overwrite the slot of p in place when
the key exists, append a fresh entry at the end otherwise. -/
def setRep : RepTable → String → ℚ → RepTable
  | [], p, v => [(p, v)]
  | q :: t, p, v => if q.1 = p then (p, v) :: t else q :: setRep t p v

/-- One used participant in _update_reputation: a fresh participant
gets 0.5, a known one goes up by 0.1 capped at 1.0. -/
def bumpUsed (acc : RepTable) (p : String) : RepTable :=
  match lookupRep acc p with
  | none => setRep acc p (1 / 2)
  | some v => setRep acc p (min 1 (v + 1 / 10))

/-- One excluded participant in _update_reputation: a fresh participant
gets 0.3, a known one goes down by 0.1 floored at 0.0. -/
def bumpExcl (acc : RepTable) (p : String) : RepTable :=
  match lookupRep acc p with
  | none => setRep acc p (3 / 10)
  | some v => setRep acc p (max 0 (v - 1 / 10))

/-- _update_reputation: first every used participant, then every
excluded participant. -/
def update_reputation (t : RepTable) (used excluded : List String) : RepTable :=
  excluded.foldl bumpExcl (used.foldl bumpUsed t)

/-- The partition invariant of an AggregationResult against the ids of
its input round: used and excluded ids are drawn from the round and do
not overlap. -/
def ResultPartitionInv (r : Round) (res : AggregationResult) : Prop :=
  (∀ p ∈ res.participants_used, p ∈ r.map Prod.fst) ∧
  (∀ p ∈ res.participants_excluded, p ∈ r.map Prod.fst) ∧
  (∀ p ∈ res.participants_used, p ∉ res.participants_excluded)

/-! Concrete inputs used by witnesses, counterexamples and evaluations. -/

/-- The default aggregator configuration (ratio 0.3, min 3). -/
def cfg0 : AggConfig := {}

/-- A one-layer update whose single element is 0. -/
def u0 : Update := [("layer1", [(0 : ℚ)])]

/-- A one-layer update whose single element is 6. -/
def u6 : Update := [("layer1", [(6 : ℚ)])]

/-- A round of 13 participants (for claim C1, n = 13, f = 1). -/
def r13 : Round := (List.range 13).map (fun i => ("p" ++ toString i, u0))

/-- Three identical updates inserted in order b, a, c. -/
def rBAC : Round := [("b", u0), ("a", u0), ("c", u0)]

/-- The same three identical updates inserted in order a, b, c. -/
def rABC : Round := [("a", u0), ("b", u0), ("c", u0)]

/-- Four participants in two clusters: a, b at 0 and c, d at 6. -/
def rPairs : Round := [("a", u0), ("b", u0), ("c", u6), ("d", u6)]

/-- A reputation snapshot naming a participant zz outside the round,
with the minimal score (for claim C7). -/
def repOut : RepTable := [("a", 1/2), ("b", 1/2), ("c", 1/2), ("zz", 1/10)]

/-- A reputation snapshot flagging a and b of the round as low (for
claim C10). -/
def repLow : RepTable :=
  [("a", 1/10), ("b", 1/10), ("c", 9/10), ("d", 9/10),
   ("z1", 9/10), ("z2", 9/10), ("z3", 9/10), ("z4", 9/10)]

/-- Two-layer updates whose per-layer norm rankings disagree with the
whole-update norm ranking (for claim C5). -/
def up1 : Update := [("layer1", [(0 : ℚ)]), ("layer2", [(4 : ℚ)])]

/-- Second participant of the claim C5 round. -/
def up2 : Update := [("layer1", [(3 : ℚ)]), ("layer2", [(0 : ℚ)])]

/-- Third participant of the claim C5 round. -/
def up3 : Update := [("layer1", [(4 : ℚ)]), ("layer2", [(3 : ℚ)])]

/-- The claim C5 round of three two-layer updates. -/
def rTrim : Round := [("p1", up1), ("p2", up2), ("p3", up3)]

end ByzantineRobust

namespace ByzantineRobust

/-- C1: for n = 13 and f = 1 the spec expects Bulyan to select exactly
11 participants and exclude 2; the code instead stops stage 1 before
the first Krum run, because the pool of 13 is already below the inner
threshold 2 * krum_f + 3 = 21, selects nobody, and then crashes with an
IndexError inside _coordinate_wise_median on the empty selection. -/
theorem c1_bulyan_n13_f1_selects_nobody_and_errors :
    13 < 2 * (13 - 2 * 1 - 2) + 3 ∧
    bulyanSelectAux cfg0 (13 - 2 * 1 - 2) (13 - 2 * 1) r13 = [] ∧
    bulyan_aggregation cfg0 r13 (some 1) = .error .indexError :=
  ⟨by norm_num, rfl, rfl⟩

/-- C3: calling Krum with fewer than 2f + 3 participants, or Bulyan
with fewer than 4f + 3, with f explicit or defaulted from the ratio,
returns the InsufficientParticipants error carrying the exact required
count and the actual count, before any computation. -/
theorem c3_insufficient_participants (cfg : AggConfig) (r : Round) (f : ℕ) :
    (r.length < 2 * f + 3 →
      krum_aggregation cfg r (some f) =
        .error (.insufficientParticipants (2 * f + 3) r.length)) ∧
    (r.length < 4 * f + 3 →
      bulyan_aggregation cfg r (some f) =
        .error (.insufficientParticipants (4 * f + 3) r.length)) ∧
    (r.length < 2 * defaultF cfg r.length + 3 →
      krum_aggregation cfg r none =
        .error (.insufficientParticipants (2 * defaultF cfg r.length + 3) r.length)) ∧
    (r.length < 4 * defaultF cfg r.length + 3 →
      bulyan_aggregation cfg r none =
        .error (.insufficientParticipants (4 * defaultF cfg r.length + 3) r.length)) := by
  refine ⟨fun h => ?_, fun h => ?_, fun h => ?_, fun h => ?_⟩ <;>
    simp [krum_aggregation, bulyan_aggregation, Option.getD, h]

/-- Evaluation of the defaulted adversary count on the empty round. -/
theorem defaultF_cfg0_zero : defaultF cfg0 0 = 0 := by
  norm_num [defaultF, cfg0, Rat.floor_def']

/-- Witness for C3 at the empty round with f = 0: required 3, actual 0,
in all four modes. -/
theorem c3_insufficient_participants_witness :
    krum_aggregation cfg0 ([] : Round) (some 0) = .error (.insufficientParticipants 3 0) ∧
    bulyan_aggregation cfg0 ([] : Round) (some 0) = .error (.insufficientParticipants 3 0) ∧
    krum_aggregation cfg0 ([] : Round) none = .error (.insufficientParticipants 3 0) ∧
    bulyan_aggregation cfg0 ([] : Round) none = .error (.insufficientParticipants 3 0) := by
  obtain ⟨h1, h2, h3, h4⟩ := c3_insufficient_participants cfg0 [] 0
  simp only [List.length_nil, defaultF_cfg0_zero] at h3 h4
  exact ⟨h1 (by decide), h2 (by decide), h3 (by decide), h4 (by decide)⟩

/-! Helper lemmas about the enumeration, sorting and selection plumbing. -/

theorem enumIdx_length (l : List α) (n : ℕ) : (enumIdx n l).length = l.length := by
  induction l generalizing n with
  | nil => rfl
  | cons a t ih => simp [enumIdx, ih]

theorem enumIdx_getElem? (l : List α) (n i : ℕ) :
    (enumIdx n l)[i]? = l[i]?.map (fun a => (n + i, a)) := by
  induction l generalizing n i with
  | nil => simp [enumIdx]
  | cons a t ih =>
    cases i with
    | zero => simp [enumIdx]
    | succ i =>
      have harith : n + 1 + i = n + (i + 1) := by omega
      have hrec := ih (n + 1) i
      simp only [enumIdx, List.getElem?_cons_succ]
      rw [hrec, harith]

theorem enumIdx_filter_ne_all {i : ℕ} (l : List α) :
    ∀ n, i < n → (enumIdx n l).filter (fun jp => jp.1 ≠ i) = enumIdx n l := by
  induction l with
  | nil => intro n _; rfl
  | cons a t ih =>
    intro n hn
    show List.filter _ ((n, a) :: enumIdx (n + 1) t) = _
    rw [List.filter_cons, if_pos (by simp; omega), ih (n + 1) (by omega)]
    rfl

theorem enumIdx_filter_ne_length {i : ℕ} (l : List α) :
    ∀ n, n ≤ i → i < n + l.length →
      ((enumIdx n l).filter (fun jp => jp.1 ≠ i)).length = l.length - 1 := by
  induction l with
  | nil => intro n h1 h2; simp at h2; omega
  | cons a t ih =>
    intro n h1 h2
    show (List.filter _ ((n, a) :: enumIdx (n + 1) t)).length = _
    by_cases hni : n = i
    · rw [List.filter_cons, if_neg (by simp [hni]),
        enumIdx_filter_ne_all t (n + 1) (by omega), enumIdx_length]
      simp only [List.length_cons]
      omega
    · have h2' : i < n + 1 + t.length := by simp at h2; omega
      have ht : 1 ≤ t.length := by omega
      rw [List.filter_cons, if_pos (by simp; omega), List.length_cons,
        ih (n + 1) (by omega) h2']
      simp only [List.length_cons]
      omega

theorem krumDistances_length (r : Round) (i : ℕ) (u : Update) (hi : i < r.length) :
    (krumDistances r i u).length = r.length - 1 := by
  have h := enumIdx_filter_ne_length (i := i) r 0 (by omega) (by omega)
  simp only [krumDistances, List.length_map]
  exact h

theorem sublist_take_sum_le (l t : List ℝ) (hsub : t.Sublist l) (hl : l.Sorted (· ≤ ·)) :
    (l.take t.length).sum ≤ t.sum := by
  induction hsub with
  | slnil => simp
  | @cons t' l' a hs ih =>
    rcases List.sorted_cons.1 hl with ⟨ha, hl'⟩
    cases ht' : t'.length with
    | zero =>
      have ht0 : t' = [] := List.length_eq_zero.1 ht'
      simp [ht0]
    | succ m =>
      have hm1 : t'.length ≤ l'.length := hs.length_le
      have hml : m < l'.length := by omega
      have hx : l'[m]? = some (l'.get ⟨m, hml⟩) := List.getElem?_eq_getElem hml
      have step : ((a :: l').take (m + 1)).sum ≤ (l'.take (m + 1)).sum := by
        have htk : (a :: l').take (m + 1) = a :: l'.take m := rfl
        have htk2 : l'.take (m + 1) = l'.take m ++ [l'.get ⟨m, hml⟩] := by
          rw [List.take_succ, hx]; rfl
        rw [htk, htk2]
        simp only [List.sum_cons, List.sum_append, List.sum_nil, add_zero]
        have : a ≤ l'.get ⟨m, hml⟩ := ha _ (List.get_mem _ _ _)
        linarith
      calc ((a :: l').take (m + 1)).sum ≤ (l'.take (m + 1)).sum := step
        _ ≤ t'.sum := by rw [← ht']; exact ih hl'
  | @cons₂ t' l' a hs ih =>
    rcases List.sorted_cons.1 hl with ⟨_, hl'⟩
    simp only [List.length_cons, List.take_succ_cons, List.sum_cons]
    have := ih hl'
    linarith

theorem sorted_take_sum_min (l s : List ℝ) (hl : l.Sorted (· ≤ ·)) (hs : s.Subperm l) :
    (l.take s.length).sum ≤ s.sum := by
  obtain ⟨t, htp, hts⟩ := hs
  have hlen : t.length = s.length := htp.length_eq
  have hsum : t.sum = s.sum := htp.sum_eq
  rw [← hlen, ← hsum]
  exact sublist_take_sum_le l t hts hl

theorem firstMinBy_spec (s : String × ℝ) (l : List (String × ℝ)) :
    ∃ res k, firstMinBy (s :: l) = some res ∧ (s :: l)[k]? = some res ∧
      (∀ x ∈ s :: l, res.2 ≤ x.2) ∧ (∀ x ∈ (s :: l).take k, res.2 < x.2) := by
  induction l generalizing s with
  | nil =>
    refine ⟨s, 0, rfl, rfl, ?_, by simp⟩
    intro x hx
    rcases List.mem_cons.1 hx with h | h
    · exact h ▸ le_refl _
    · simp at h
  | cons q t ih =>
    have hstep : firstMinBy (s :: q :: t) = firstMinBy ((if q.2 < s.2 then q else s) :: t) :=
      rfl
    by_cases h : q.2 < s.2
    · obtain ⟨res, k, hfm, hget, hmin, hstrict⟩ := ih q
      have hrq : res.2 ≤ q.2 := hmin q (List.mem_cons_self _ _)
      refine ⟨res, k + 1, ?_, ?_, ?_, ?_⟩
      · rw [hstep, if_pos h]; exact hfm
      · simpa using hget
      · intro x hx
        rcases List.mem_cons.1 hx with hx | hx
        · exact hx ▸ le_of_lt (lt_of_le_of_lt hrq h)
        · exact hmin x hx
      · intro x hx
        rw [List.take_succ_cons] at hx
        rcases List.mem_cons.1 hx with hx | hx
        · exact hx ▸ lt_of_le_of_lt hrq h
        · exact hstrict x hx
    · obtain ⟨res, k, hfm, hget, hmin, hstrict⟩ := ih s
      have hsq : s.2 ≤ q.2 := not_lt.1 h
      cases k with
      | zero =>
        have hres : res = s := by simpa using hget.symm
        refine ⟨res, 0, ?_, ?_, ?_, by simp⟩
        · rw [hstep, if_neg h]; exact hfm
        · simpa using hres.symm
        · intro x hx
          rcases List.mem_cons.1 hx with hx | hx
          · exact hx ▸ hmin s (List.mem_cons_self _ _)
          · rcases List.mem_cons.1 hx with hx2 | hx2
            · exact hx2 ▸ (hres ▸ hsq)
            · exact hmin x (List.mem_cons_of_mem _ hx2)
      | succ k' =>
        have hlts : res.2 < s.2 := by
          refine hstrict s ?_
          rw [List.take_succ_cons]
          exact List.mem_cons_self _ _
        refine ⟨res, k' + 2, ?_, ?_, ?_, ?_⟩
        · rw [hstep, if_neg h]; exact hfm
        · have heq : (s :: t)[k' + 1]? = t[k']? := List.getElem?_cons_succ
          rw [heq] at hget
          simpa using hget
        · intro x hx
          rcases List.mem_cons.1 hx with hx | hx
          · exact hx ▸ hmin s (List.mem_cons_self _ _)
          · rcases List.mem_cons.1 hx with hx2 | hx2
            · exact hx2 ▸ le_trans (le_of_lt hlts) hsq
            · exact hmin x (List.mem_cons_of_mem _ hx2)
        · intro x hx
          rw [List.take_succ_cons] at hx
          rcases List.mem_cons.1 hx with hx | hx
          · exact hx ▸ hlts
          · rw [List.take_succ_cons] at hx
            rcases List.mem_cons.1 hx with hx2 | hx2
            · exact hx2 ▸ lt_of_lt_of_le hlts hsq
            · refine hstrict x ?_
              rw [List.take_succ_cons]
              exact List.mem_cons_of_mem _ hx2

theorem lookupUpdate_get_of_nodup (r : Round) (h : (r.map Prod.fst).Nodup) (k : ℕ)
    (hk : k < r.length) :
    lookupUpdate r (r.get ⟨k, hk⟩).1 = some (r.get ⟨k, hk⟩).2 := by
  induction r generalizing k with
  | nil => simp at hk
  | cons a t ih =>
    have hmap : ((a :: t).map Prod.fst) = a.1 :: t.map Prod.fst := rfl
    rw [hmap] at h
    rcases List.nodup_cons.1 h with ⟨hnotin, hnd⟩
    cases k with
    | zero => simp [lookupUpdate]
    | succ k =>
      have hk' : k < t.length := by simpa using hk
      have hmem : (t.get ⟨k, hk'⟩).1 ∈ t.map Prod.fst :=
        List.mem_map.2 ⟨t.get ⟨k, hk'⟩, List.get_mem _ _ _, rfl⟩
      have hne : ¬(a.1 = (t.get ⟨k, hk'⟩).1) := fun he => hnotin (he ▸ hmem)
      have hrec := ih hnd k hk'
      have hgoal : lookupUpdate (a :: t) (t.get ⟨k, hk'⟩).1 =
          lookupUpdate t (t.get ⟨k, hk'⟩).1 := by
        unfold lookupUpdate
        rw [List.find?_cons_of_neg]
        simpa using hne
      rw [show (a :: t).get ⟨k + 1, hk⟩ = t.get ⟨k, hk'⟩ from rfl, hgoal]
      exact hrec

theorem krum_scores_getElem? (r : Round) (f : ℕ) (j : ℕ) (hj : j < r.length) :
    (krum_scores r f)[j]? =
      some ((r.get ⟨j, hj⟩).1, krumScoreOf r f j (r.get ⟨j, hj⟩).2) := by
  simp [krum_scores, List.getElem?_map, enumIdx_getElem?, List.getElem?_eq_getElem hj]

theorem krum_scores_length (r : Round) (f : ℕ) : (krum_scores r f).length = r.length := by
  simp [krum_scores, enumIdx_length]

theorem krum_aggregation_ok (cfg : AggConfig) (r : Round) (f : ℕ)
    (h1 : ¬(r.length < 2 * f + 3)) (res : String × ℝ)
    (hfm : firstMinBy (krum_scores r f) = some res) :
    krum_aggregation cfg r (some f) = .ok
      { aggregated_weights := (lookupUpdate r res.1).getD []
        method_used := .krum
        participants_used := [res.1]
        participants_excluded := (r.map Prod.fst).filter (fun p => p ≠ res.1)
        robustness_score := robustnessFromScores ((krum_scores r f).map Prod.snd) } := by
  unfold krum_aggregation
  simp only [Option.getD]
  rw [if_neg h1, hfm]

theorem krum_structure (cfg : AggConfig) (r : Round) (f : ℕ)
    (h1 : 2 * f + 3 ≤ r.length) :
    ∃ (k : ℕ) (hk : k < r.length),
      krum_aggregation cfg r (some f) = .ok
        { aggregated_weights := (lookupUpdate r (r.get ⟨k, hk⟩).1).getD []
          method_used := .krum
          participants_used := [(r.get ⟨k, hk⟩).1]
          participants_excluded := (r.map Prod.fst).filter (fun p => p ≠ (r.get ⟨k, hk⟩).1)
          robustness_score := robustnessFromScores ((krum_scores r f).map Prod.snd) } ∧
      (∀ (j : ℕ) (hj : j < r.length),
        krumScoreOf r f k (r.get ⟨k, hk⟩).2 ≤ krumScoreOf r f j (r.get ⟨j, hj⟩).2) ∧
      (∀ (j : ℕ) (hj : j < r.length), j < k →
        krumScoreOf r f k (r.get ⟨k, hk⟩).2 < krumScoreOf r f j (r.get ⟨j, hj⟩).2) := by
  match r, h1 with
  | p0 :: rt, h1 =>
  have hscores : krum_scores (p0 :: rt) f =
      (p0.1, krumScoreOf (p0 :: rt) f 0 p0.2) ::
        (enumIdx 1 rt).map (fun ip => (ip.2.1, krumScoreOf (p0 :: rt) f ip.1 ip.2.2)) := rfl
  obtain ⟨res, k, hfm, hget, hmin, hstrict⟩ :=
    firstMinBy_spec (p0.1, krumScoreOf (p0 :: rt) f 0 p0.2)
      ((enumIdx 1 rt).map (fun ip => (ip.2.1, krumScoreOf (p0 :: rt) f ip.1 ip.2.2)))
  rw [← hscores] at hfm hget hmin hstrict
  have hk : k < (p0 :: rt).length := by
    by_contra hc
    rw [List.getElem?_eq_none
      (by rw [krum_scores_length]; omega)] at hget
    exact Option.noConfusion hget
  have hres : res = (((p0 :: rt).get ⟨k, hk⟩).1,
      krumScoreOf (p0 :: rt) f k ((p0 :: rt).get ⟨k, hk⟩).2) := by
    have hsk := krum_scores_getElem? (p0 :: rt) f k hk
    rw [hget] at hsk
    exact Option.some.inj hsk
  refine ⟨k, hk, ?_, ?_, ?_⟩
  · have hagg := krum_aggregation_ok cfg (p0 :: rt) f (by omega) res hfm
    rw [hres] at hagg
    exact hagg
  · intro j hj
    have hsj := krum_scores_getElem? (p0 :: rt) f j hj
    have hmem : (((p0 :: rt).get ⟨j, hj⟩).1,
        krumScoreOf (p0 :: rt) f j ((p0 :: rt).get ⟨j, hj⟩).2) ∈ krum_scores (p0 :: rt) f :=
      List.getElem?_mem hsj
    have := hmin _ hmem
    rw [hres] at this
    exact this
  · intro j hj hjk
    have hsj := krum_scores_getElem? (p0 :: rt) f j hj
    have htake : ((krum_scores (p0 :: rt) f).take k)[j]? =
        (krum_scores (p0 :: rt) f)[j]? := by
      rw [List.getElem?_take]
      exact if_pos hjk
    have hmem : (((p0 :: rt).get ⟨j, hj⟩).1,
        krumScoreOf (p0 :: rt) f j ((p0 :: rt).get ⟨j, hj⟩).2) ∈
          (krum_scores (p0 :: rt) f).take k :=
      List.getElem?_mem (htake.trans hsj)
    have := hstrict _ hmem
    rw [hres] at this
    exact this

/-- C2: under the 2f + 3 precondition Krum scores every participant by
the sum of the smallest n - f - 2 of its n - 1 distances to the other
participants (self-comparison excluded), selects a participant with
minimal score, and returns its update verbatim with
participants_used = [selected] and participants_excluded all others. -/
theorem c2_krum_functional_correctness (cfg : AggConfig) (r : Round) (f : ℕ)
    (h1 : 2 * f + 3 ≤ r.length) (h2 : (r.map Prod.fst).Nodup) :
    ∃ (res : AggregationResult) (k : ℕ) (hk : k < r.length),
      krum_aggregation cfg r (some f) = .ok res ∧
      res.aggregated_weights = (r.get ⟨k, hk⟩).2 ∧
      res.participants_used = [(r.get ⟨k, hk⟩).1] ∧
      res.participants_excluded =
        (r.map Prod.fst).filter (fun p => p ≠ (r.get ⟨k, hk⟩).1) ∧
      (∀ (j : ℕ) (hj : j < r.length),
        krumScoreOf r f k (r.get ⟨k, hk⟩).2 ≤ krumScoreOf r f j (r.get ⟨j, hj⟩).2) ∧
      (∀ (j : ℕ) (hj : j < r.length),
        (krumDistances r j (r.get ⟨j, hj⟩).2).length = r.length - 1 ∧
        ∃ l' : List ℝ, l'.Sorted (· ≤ ·) ∧ l'.Perm (krumDistances r j (r.get ⟨j, hj⟩).2) ∧
          krumScoreOf r f j (r.get ⟨j, hj⟩).2 = (l'.take (r.length - f - 2)).sum ∧
          ∀ s : List ℝ, s.Subperm (krumDistances r j (r.get ⟨j, hj⟩).2) →
            s.length = r.length - f - 2 →
            krumScoreOf r f j (r.get ⟨j, hj⟩).2 ≤ s.sum) := by
  obtain ⟨k, hk, hagg, hmin, _⟩ := krum_structure cfg r f h1
  refine ⟨_, k, hk, hagg, ?_, rfl, rfl, hmin, ?_⟩
  · show (lookupUpdate r (r.get ⟨k, hk⟩).1).getD [] = (r.get ⟨k, hk⟩).2
    rw [lookupUpdate_get_of_nodup r h2 k hk]
    rfl
  · intro j hj
    refine ⟨krumDistances_length r j _ hj,
      List.insertionSort (· ≤ ·) (krumDistances r j (r.get ⟨j, hj⟩).2),
      List.sorted_insertionSort _ _, List.perm_insertionSort _ _, rfl, ?_⟩
    intro s hs hlen
    have hsorted : (List.insertionSort (· ≤ ·)
        (krumDistances r j (r.get ⟨j, hj⟩).2)).Sorted (· ≤ ·) :=
      List.sorted_insertionSort _ _
    have hs' : s.Subperm
        (List.insertionSort (· ≤ ·) (krumDistances r j (r.get ⟨j, hj⟩).2)) :=
      hs.trans (List.perm_insertionSort _ _).symm.subperm
    have hmin2 := sorted_take_sum_min _ s hsorted hs'
    rw [hlen] at hmin2
    exact hmin2

/-- Witness for C2: three identical updates with f = 0 satisfy the
precondition and the key uniqueness hypothesis. -/
theorem c2_krum_functional_correctness_witness :
    (2 * 0 + 3 ≤ rABC.length) ∧ ((rABC.map Prod.fst).Nodup) ∧
    (∃ (res : AggregationResult) (k : ℕ) (hk : k < rABC.length),
      krum_aggregation cfg0 rABC (some 0) = .ok res ∧
      res.aggregated_weights = (rABC.get ⟨k, hk⟩).2 ∧
      res.participants_used = [(rABC.get ⟨k, hk⟩).1] ∧
      res.participants_excluded =
        (rABC.map Prod.fst).filter (fun p => p ≠ (rABC.get ⟨k, hk⟩).1) ∧
      (∀ (j : ℕ) (hj : j < rABC.length),
        krumScoreOf rABC 0 k (rABC.get ⟨k, hk⟩).2 ≤
          krumScoreOf rABC 0 j (rABC.get ⟨j, hj⟩).2) ∧
      (∀ (j : ℕ) (hj : j < rABC.length),
        (krumDistances rABC j (rABC.get ⟨j, hj⟩).2).length = rABC.length - 1 ∧
        ∃ l' : List ℝ, l'.Sorted (· ≤ ·) ∧ l'.Perm (krumDistances rABC j (rABC.get ⟨j, hj⟩).2) ∧
          krumScoreOf rABC 0 j (rABC.get ⟨j, hj⟩).2 =
            (l'.take (rABC.length - 0 - 2)).sum ∧
          ∀ s : List ℝ, s.Subperm (krumDistances rABC j (rABC.get ⟨j, hj⟩).2) →
            s.length = rABC.length - 0 - 2 →
            krumScoreOf rABC 0 j (rABC.get ⟨j, hj⟩).2 ≤ s.sum)) :=
  ⟨by decide, by decide,
    c2_krum_functional_correctness cfg0 rABC 0 (by decide) (by decide)⟩

/-! Concrete evaluation of Krum on three identical updates. -/

theorem dist_u0_u0 : calculate_distance u0 u0 = 0 := by
  have hacc : distAcc u0 u0 = 0 := by
    norm_num [distAcc, u0, List.find?, sumSqDiff]
  simp [calculate_distance, hacc]

theorem insertionSort_zero_pair :
    List.insertionSort (· ≤ ·) [(0 : ℝ), 0] = [0, 0] := by
  simp [List.insertionSort, List.orderedInsert]

theorem krumScoreOf_three_zero (r : Round) (i : ℕ) (u : Update)
    (hd : krumDistances r i u = [(0 : ℝ), 0]) (hn : r.length = 3) :
    krumScoreOf r 0 i u = 0 := by
  unfold krumScoreOf
  rw [hd, hn, insertionSort_zero_pair]
  norm_num

theorem krum_scores_rBAC : krum_scores rBAC 0 = [("b", 0), ("a", 0), ("c", 0)] := by
  show [("b", krumScoreOf rBAC 0 0 u0), ("a", krumScoreOf rBAC 0 1 u0),
        ("c", krumScoreOf rBAC 0 2 u0)] = _
  rw [krumScoreOf_three_zero rBAC 0 u0 (by rw [show krumDistances rBAC 0 u0 =
        [calculate_distance u0 u0, calculate_distance u0 u0] from rfl, dist_u0_u0]) rfl,
      krumScoreOf_three_zero rBAC 1 u0 (by rw [show krumDistances rBAC 1 u0 =
        [calculate_distance u0 u0, calculate_distance u0 u0] from rfl, dist_u0_u0]) rfl,
      krumScoreOf_three_zero rBAC 2 u0 (by rw [show krumDistances rBAC 2 u0 =
        [calculate_distance u0 u0, calculate_distance u0 u0] from rfl, dist_u0_u0]) rfl]

theorem krum_scores_rABC : krum_scores rABC 0 = [("a", 0), ("b", 0), ("c", 0)] := by
  show [("a", krumScoreOf rABC 0 0 u0), ("b", krumScoreOf rABC 0 1 u0),
        ("c", krumScoreOf rABC 0 2 u0)] = _
  rw [krumScoreOf_three_zero rABC 0 u0 (by rw [show krumDistances rABC 0 u0 =
        [calculate_distance u0 u0, calculate_distance u0 u0] from rfl, dist_u0_u0]) rfl,
      krumScoreOf_three_zero rABC 1 u0 (by rw [show krumDistances rABC 1 u0 =
        [calculate_distance u0 u0, calculate_distance u0 u0] from rfl, dist_u0_u0]) rfl,
      krumScoreOf_three_zero rABC 2 u0 (by rw [show krumDistances rABC 2 u0 =
        [calculate_distance u0 u0, calculate_distance u0 u0] from rfl, dist_u0_u0]) rfl]

theorem firstMinBy_three_zero (p q w : String) :
    firstMinBy [(p, (0 : ℝ)), (q, 0), (w, 0)] = some (p, 0) := by
  simp [firstMinBy]

/-- C6 counterexample: the same round, handed over in two insertion
orders, gives two different Krum winners under a three-way score tie:
order b, a, c selects b while order a, b, c selects a, even though b is
not the lexicographically smallest tied participant. -/
theorem c6_tie_break_counterexample :
    (krum_aggregation cfg0 rBAC (some 0)).map (fun res => res.participants_used) =
      .ok ["b"] ∧
    (krum_aggregation cfg0 rABC (some 0)).map (fun res => res.participants_used) =
      .ok ["a"] ∧
    (rBAC.map Prod.fst).Perm (rABC.map Prod.fst) ∧
    lookupUpdate rBAC "a" = lookupUpdate rABC "a" ∧
    lookupUpdate rBAC "b" = lookupUpdate rABC "b" ∧
    lookupUpdate rBAC "c" = lookupUpdate rABC "c" ∧
    "b" ≠ "a" := by
  have hb := krum_aggregation_ok cfg0 rBAC 0 (by decide) ("b", 0)
    (by rw [krum_scores_rBAC]; exact firstMinBy_three_zero "b" "a" "c")
  have ha := krum_aggregation_ok cfg0 rABC 0 (by decide) ("a", 0)
    (by rw [krum_scores_rABC]; exact firstMinBy_three_zero "a" "b" "c")
  refine ⟨?_, ?_, by decide, rfl, rfl, rfl, by decide⟩
  · rw [hb]; rfl
  · rw [ha]; rfl

/-- C6 amended: Krum selection is deterministic only relative to the
insertion order of the input mapping: the winner is the first
participant, in input order, whose score attains the minimum (every
earlier participant has a strictly larger score); it is not an
order-independent lexicographic tie-break. -/
theorem c6_first_argmin_amended (cfg : AggConfig) (r : Round) (f : ℕ)
    (h1 : 2 * f + 3 ≤ r.length) :
    ∃ (res : AggregationResult) (k : ℕ) (hk : k < r.length),
      krum_aggregation cfg r (some f) = .ok res ∧
      res.participants_used = [(r.get ⟨k, hk⟩).1] ∧
      (∀ (j : ℕ) (hj : j < r.length),
        krumScoreOf r f k (r.get ⟨k, hk⟩).2 ≤ krumScoreOf r f j (r.get ⟨j, hj⟩).2) ∧
      (∀ (j : ℕ) (hj : j < r.length), j < k →
        krumScoreOf r f k (r.get ⟨k, hk⟩).2 < krumScoreOf r f j (r.get ⟨j, hj⟩).2) := by
  obtain ⟨k, hk, hagg, hmin, hstrict⟩ := krum_structure cfg r f h1
  exact ⟨_, k, hk, hagg, rfl, hmin, hstrict⟩

/-- Witness for the amended C6 at the concrete round in order b, a, c. -/
theorem c6_first_argmin_amended_witness :
    (2 * 0 + 3 ≤ rBAC.length) ∧
    (∃ (res : AggregationResult) (k : ℕ) (hk : k < rBAC.length),
      krum_aggregation cfg0 rBAC (some 0) = .ok res ∧
      res.participants_used = [(rBAC.get ⟨k, hk⟩).1] ∧
      (∀ (j : ℕ) (hj : j < rBAC.length),
        krumScoreOf rBAC 0 k (rBAC.get ⟨k, hk⟩).2 ≤
          krumScoreOf rBAC 0 j (rBAC.get ⟨j, hj⟩).2) ∧
      (∀ (j : ℕ) (hj : j < rBAC.length), j < k →
        krumScoreOf rBAC 0 k (rBAC.get ⟨k, hk⟩).2 <
          krumScoreOf rBAC 0 j (rBAC.get ⟨j, hj⟩).2)) :=
  ⟨by decide, c6_first_argmin_amended cfg0 rBAC 0 (by decide)⟩

/-! Median of identical updates (claim C9). -/

theorem insertionSort_replicate (n : ℕ) (x : ℚ) :
    List.insertionSort (· ≤ ·) (List.replicate n x) = List.replicate n x := by
  rw [List.eq_replicate_iff]
  constructor
  · rw [List.length_insertionSort, List.length_replicate]
  · intro b hb
    rw [List.mem_insertionSort] at hb
    exact (List.mem_replicate.1 hb).2

theorem getD_replicate_of_lt (n i : ℕ) (x d : ℚ) (h : i < n) :
    (List.replicate n x).getD i d = x := by
  rw [List.getD_eq_getElem?_getD, List.getElem?_replicate, if_pos h]
  rfl

theorem medianQ_replicate (n : ℕ) (x : ℚ) (hn : 0 < n) :
    medianQ (List.replicate n x) = x := by
  simp only [medianQ, insertionSort_replicate, List.length_replicate]
  by_cases hpar : n % 2 = 1
  · rw [if_pos hpar, getD_replicate_of_lt n (n / 2) x 0 (by omega)]
  · rw [if_neg hpar, getD_replicate_of_lt n (n / 2 - 1) x 0 (by omega),
      getD_replicate_of_lt n (n / 2) x 0 (by omega)]
    ring

theorem coordMedian_replicate (n : ℕ) (w : Tensor) (hn : 0 < n) :
    coordMedian (List.replicate n w) = w := by
  match n, hn with
  | n + 1, _ =>
  show (List.range w.length).map
      (fun idx => medianQ ((List.replicate (n + 1) w).map (fun t => t.getD idx 0))) = w
  simp only [List.map_replicate]
  calc (List.range w.length).map
        (fun idx => medianQ (List.replicate (n + 1) (w.getD idx 0)))
      = (List.range w.length).map (fun idx => w.getD idx 0) :=
        List.map_congr_left (fun idx _ => medianQ_replicate (n + 1) _ (by omega))
    _ = w := by
        apply List.ext_getElem
        · simp
        · intro i h1 h2
          simp [List.getD_eq_getElem?_getD, List.getElem?_eq_getElem h2]

theorem lookupTensor_self (u : Update) (hnd : (u.map Prod.fst).Nodup) :
    ∀ lw ∈ u, lookupTensor u lw.1 = lw.2 := by
  induction u with
  | nil => intro lw h; simp at h
  | cons a t ih =>
    have hmap : ((a :: t).map Prod.fst) = a.1 :: t.map Prod.fst := rfl
    rw [hmap] at hnd
    rcases List.nodup_cons.1 hnd with ⟨hnotin, hnd'⟩
    intro lw hlw
    rcases List.mem_cons.1 hlw with h | h
    · subst h
      simp [lookupTensor]
    · have hne : ¬(a.1 = lw.1) := by
        intro he
        exact hnotin (he ▸ List.mem_map.2 ⟨lw, h, rfl⟩)
      have := ih hnd' lw h
      simp only [lookupTensor, List.find?_cons] at this ⊢
      rw [show (decide (a.1 = lw.1)) = false by simp [hne]]
      exact this

/-- C9: the coordinate-wise median of k copies of the same update is
that update exactly, with every participant used and nobody excluded. -/
theorem c9_median_identical (cfg : AggConfig) (ids : List String) (u : Update)
    (hpos : 1 ≤ cfg.minParticipants) (hlen : cfg.minParticipants ≤ ids.length)
    (hnd : (u.map Prod.fst).Nodup) :
    coordinate_wise_median cfg (ids.map (fun i => (i, u))) = .ok
      { aggregated_weights := u
        method_used := .coordinateMedian
        participants_used := ids
        participants_excluded := []
        robustness_score := ((8 : ℝ) / 10) } := by
  cases ids with
  | nil => simp at hlen; omega
  | cons i0 it =>
  have hlen' : ((i0 :: it).map (fun i => (i, u))).length = (i0 :: it).length :=
    List.length_map _ _
  unfold coordinate_wise_median
  rw [if_neg (by rw [hlen']; omega)]
  have hw : coordinateWiseMedianWeights ((i0 :: it).map (fun i => (i, u))) = some u := by
    show some (u.map fun lw =>
      (lw.1, coordMedian (((i0 :: it).map (fun i => (i, u))).map
        (fun pu => lookupTensor pu.2 lw.1)))) = some u
    congr 1
    have hconst : ∀ lw : String × Tensor,
        ((i0 :: it).map (fun i => (i, u))).map (fun pu => lookupTensor pu.2 lw.1) =
          List.replicate (i0 :: it).length (lookupTensor u lw.1) := by
      intro lw
      rw [List.map_map]
      show (i0 :: it).map (fun _ => lookupTensor u lw.1) = _
      rw [List.map_const']
    calc u.map (fun lw =>
          (lw.1, coordMedian (((i0 :: it).map (fun i => (i, u))).map
            (fun pu => lookupTensor pu.2 lw.1))))
        = u.map (fun lw => (lw.1, lw.2)) := by
          apply List.map_congr_left
          intro lw hlw
          rw [hconst lw, coordMedian_replicate _ _ (by simp),
            lookupTensor_self u hnd lw hlw]
      _ = u := by simp
  rw [hw]
  have hcomp : (Prod.fst ∘ fun i : String => (i, u)) = fun i => i := rfl
  simp [hcomp]

/-- Witness for C9 with three participants and a two-layer update. -/
theorem c9_median_identical_witness :
    (1 ≤ cfg0.minParticipants) ∧
    (cfg0.minParticipants ≤ (["a", "b", "c"] : List String).length) ∧
    ((([("l1", [(1 : ℚ), 2]), ("l2", [(3 : ℚ)])] : Update).map Prod.fst).Nodup) ∧
    coordinate_wise_median cfg0
        ((["a", "b", "c"] : List String).map
          (fun i => (i, ([("l1", [(1 : ℚ), 2]), ("l2", [(3 : ℚ)])] : Update)))) = .ok
      { aggregated_weights := [("l1", [(1 : ℚ), 2]), ("l2", [(3 : ℚ)])]
        method_used := .coordinateMedian
        participants_used := ["a", "b", "c"]
        participants_excluded := []
        robustness_score := ((8 : ℝ) / 10) } :=
  ⟨by decide, by decide, by decide,
    c9_median_identical cfg0 ["a", "b", "c"] [("l1", [(1 : ℚ), 2]), ("l2", [(3 : ℚ)])]
      (by decide) (by decide) (by decide)⟩

/-! Reputation tracker lemmas (claim C8). -/

theorem lookupRep_setRep_self (t : RepTable) (p : String) (v : ℚ) :
    lookupRep (setRep t p v) p = some v := by
  induction t with
  | nil => simp [setRep, lookupRep]
  | cons a t ih =>
    by_cases hap : a.1 = p
    · show lookupRep (if a.1 = p then (p, v) :: t else a :: setRep t p v) p = some v
      rw [if_pos hap]
      simp [lookupRep]
    · show lookupRep (if a.1 = p then (p, v) :: t else a :: setRep t p v) p = some v
      rw [if_neg hap]
      show ((a :: setRep t p v).find? (fun q => q.1 = p)).map Prod.snd = some v
      rw [List.find?_cons_of_neg _ (by simpa using hap)]
      exact ih

theorem lookupRep_setRep_other (t : RepTable) (p : String) (v : ℚ) (q : String)
    (hq : q ≠ p) :
    lookupRep (setRep t p v) q = lookupRep t q := by
  induction t with
  | nil =>
    show lookupRep [(p, v)] q = lookupRep [] q
    have hpq : ¬(p = q) := fun h => hq h.symm
    simp [lookupRep, hpq]
  | cons a t ih =>
    by_cases hap : a.1 = p
    · show lookupRep (if a.1 = p then (p, v) :: t else a :: setRep t p v) q = _
      rw [if_pos hap]
      have hpq : ¬(p = q) := fun h => hq h.symm
      have haq : ¬(a.1 = q) := by rw [hap]; exact hpq
      show ((((p, v) :: t)).find? (fun e => e.1 = q)).map Prod.snd = _
      rw [List.find?_cons_of_neg _ (by simpa using hpq)]
      show _ = ((a :: t).find? (fun e => e.1 = q)).map Prod.snd
      rw [List.find?_cons_of_neg _ (by simpa using haq)]
    · show lookupRep (if a.1 = p then (p, v) :: t else a :: setRep t p v) q = _
      rw [if_neg hap]
      by_cases haq : a.1 = q
      · show ((a :: setRep t p v).find? (fun e => e.1 = q)).map Prod.snd = _
        rw [List.find?_cons_of_pos _ (by simpa using haq)]
        show _ = ((a :: t).find? (fun e => e.1 = q)).map Prod.snd
        rw [List.find?_cons_of_pos _ (by simpa using haq)]
      · show ((a :: setRep t p v).find? (fun e => e.1 = q)).map Prod.snd = _
        rw [List.find?_cons_of_neg _ (by simpa using haq)]
        show lookupRep (setRep t p v) q = _
        rw [ih]
        show _ = ((a :: t).find? (fun e => e.1 = q)).map Prod.snd
        rw [List.find?_cons_of_neg _ (by simpa using haq)]
        rfl

theorem lookupRep_bumpUsed_other (acc : RepTable) (p q : String) (hq : q ≠ p) :
    lookupRep (bumpUsed acc p) q = lookupRep acc q := by
  unfold bumpUsed
  cases lookupRep acc p <;> exact lookupRep_setRep_other _ _ _ _ hq

theorem lookupRep_bumpUsed_self (acc : RepTable) (p : String) :
    lookupRep (bumpUsed acc p) p = some
      (match lookupRep acc p with
       | none => (1 / 2 : ℚ)
       | some v => min 1 (v + 1 / 10)) := by
  unfold bumpUsed
  cases h : lookupRep acc p <;> simp [lookupRep_setRep_self]

theorem lookupRep_bumpExcl_other (acc : RepTable) (p q : String) (hq : q ≠ p) :
    lookupRep (bumpExcl acc p) q = lookupRep acc q := by
  unfold bumpExcl
  cases lookupRep acc p <;> exact lookupRep_setRep_other _ _ _ _ hq

theorem lookupRep_bumpExcl_self (acc : RepTable) (p : String) :
    lookupRep (bumpExcl acc p) p = some
      (match lookupRep acc p with
       | none => (3 / 10 : ℚ)
       | some v => max 0 (v - 1 / 10)) := by
  unfold bumpExcl
  cases h : lookupRep acc p <;> simp [lookupRep_setRep_self]

theorem foldl_bumpUsed_not_mem (l : List String) (t : RepTable) (p : String)
    (hp : p ∉ l) : lookupRep (l.foldl bumpUsed t) p = lookupRep t p := by
  induction l generalizing t with
  | nil => rfl
  | cons a l ih =>
    have hpa : p ≠ a := fun h => hp (h ▸ List.mem_cons_self a l)
    have hpl : p ∉ l := fun h => hp (List.mem_cons_of_mem a h)
    show lookupRep (l.foldl bumpUsed (bumpUsed t a)) p = _
    rw [ih (bumpUsed t a) hpl, lookupRep_bumpUsed_other t a p hpa]

theorem foldl_bumpExcl_not_mem (l : List String) (t : RepTable) (p : String)
    (hp : p ∉ l) : lookupRep (l.foldl bumpExcl t) p = lookupRep t p := by
  induction l generalizing t with
  | nil => rfl
  | cons a l ih =>
    have hpa : p ≠ a := fun h => hp (h ▸ List.mem_cons_self a l)
    have hpl : p ∉ l := fun h => hp (List.mem_cons_of_mem a h)
    show lookupRep (l.foldl bumpExcl (bumpExcl t a)) p = _
    rw [ih (bumpExcl t a) hpl, lookupRep_bumpExcl_other t a p hpa]

theorem foldl_bumpUsed_mem (l : List String) (t : RepTable) (p : String)
    (hp : p ∈ l) (hnd : l.Nodup) :
    lookupRep (l.foldl bumpUsed t) p = some
      (match lookupRep t p with
       | none => (1 / 2 : ℚ)
       | some v => min 1 (v + 1 / 10)) := by
  induction l generalizing t with
  | nil => simp at hp
  | cons a l ih =>
    rcases List.nodup_cons.1 hnd with ⟨hanl, hnd'⟩
    show lookupRep (l.foldl bumpUsed (bumpUsed t a)) p = _
    rcases List.mem_cons.1 hp with hpa | hpl
    · subst hpa
      rw [foldl_bumpUsed_not_mem l (bumpUsed t p) p hanl]
      exact lookupRep_bumpUsed_self t p
    · have hpa : p ≠ a := fun h => hanl (h ▸ hpl)
      rw [ih (bumpUsed t a) hpl hnd', lookupRep_bumpUsed_other t a p hpa]

theorem foldl_bumpExcl_mem (l : List String) (t : RepTable) (p : String)
    (hp : p ∈ l) (hnd : l.Nodup) :
    lookupRep (l.foldl bumpExcl t) p = some
      (match lookupRep t p with
       | none => (3 / 10 : ℚ)
       | some v => max 0 (v - 1 / 10)) := by
  induction l generalizing t with
  | nil => simp at hp
  | cons a l ih =>
    rcases List.nodup_cons.1 hnd with ⟨hanl, hnd'⟩
    show lookupRep (l.foldl bumpExcl (bumpExcl t a)) p = _
    rcases List.mem_cons.1 hp with hpa | hpl
    · subst hpa
      rw [foldl_bumpExcl_not_mem l (bumpExcl t p) p hanl]
      exact lookupRep_bumpExcl_self t p
    · have hpa : p ≠ a := fun h => hanl (h ▸ hpl)
      rw [ih (bumpExcl t a) hpl hnd', lookupRep_bumpExcl_other t a p hpa]

theorem mem_setRep (t : RepTable) (p : String) (v : ℚ) :
    ∀ q ∈ setRep t p v, q = (p, v) ∨ q ∈ t := by
  induction t with
  | nil => intro q hq; simp [setRep] at hq; exact Or.inl hq
  | cons a t ih =>
    intro q hq
    by_cases hap : a.1 = p
    · rw [show setRep (a :: t) p v = (p, v) :: t from by rw [setRep, if_pos hap]] at hq
      rcases List.mem_cons.1 hq with h | h
      · exact Or.inl h
      · exact Or.inr (List.mem_cons_of_mem a h)
    · rw [show setRep (a :: t) p v = a :: setRep t p v from by rw [setRep, if_neg hap]] at hq
      rcases List.mem_cons.1 hq with h | h
      · exact Or.inr (h ▸ List.mem_cons_self a t)
      · rcases ih q h with h2 | h2
        · exact Or.inl h2
        · exact Or.inr (List.mem_cons_of_mem a h2)

theorem lookupRep_mem (t : RepTable) (p : String) (v : ℚ)
    (h : lookupRep t p = some v) : ∃ q ∈ t, q.2 = v := by
  unfold lookupRep at h
  cases hf : t.find? (fun q => q.1 = p) with
  | none => rw [hf] at h; exact Option.noConfusion h
  | some e =>
    rw [hf] at h
    exact ⟨e, List.mem_of_find?_eq_some hf, Option.some.inj h⟩

theorem bumpUsed_bounds (acc : RepTable) (p : String)
    (h : ∀ q ∈ acc, 0 ≤ q.2 ∧ q.2 ≤ 1) :
    ∀ q ∈ bumpUsed acc p, 0 ≤ q.2 ∧ q.2 ≤ 1 := by
  unfold bumpUsed
  cases hl : lookupRep acc p with
  | none =>
    intro q hq
    rcases mem_setRep acc p (1 / 2) q hq with h2 | h2
    · rw [h2]; norm_num
    · exact h q h2
  | some v =>
    obtain ⟨e, he, hev⟩ := lookupRep_mem acc p v hl
    have hv := h e he
    rw [hev] at hv
    intro q hq
    rcases mem_setRep acc p (min 1 (v + 1 / 10)) q hq with h2 | h2
    · rw [h2]
      refine ⟨le_min (by norm_num) (by linarith [hv.1]), min_le_left _ _⟩
    · exact h q h2

theorem bumpExcl_bounds (acc : RepTable) (p : String)
    (h : ∀ q ∈ acc, 0 ≤ q.2 ∧ q.2 ≤ 1) :
    ∀ q ∈ bumpExcl acc p, 0 ≤ q.2 ∧ q.2 ≤ 1 := by
  unfold bumpExcl
  cases hl : lookupRep acc p with
  | none =>
    intro q hq
    rcases mem_setRep acc p (3 / 10) q hq with h2 | h2
    · rw [h2]; norm_num
    · exact h q h2
  | some v =>
    obtain ⟨e, he, hev⟩ := lookupRep_mem acc p v hl
    have hv := h e he
    rw [hev] at hv
    intro q hq
    rcases mem_setRep acc p (max 0 (v - 1 / 10)) q hq with h2 | h2
    · rw [h2]
      refine ⟨le_max_left _ _, max_le (by norm_num) (by linarith [hv.2])⟩
    · exact h q h2

theorem foldl_bumpUsed_bounds (l : List String) (t : RepTable)
    (h : ∀ q ∈ t, 0 ≤ q.2 ∧ q.2 ≤ 1) :
    ∀ q ∈ l.foldl bumpUsed t, 0 ≤ q.2 ∧ q.2 ≤ 1 := by
  induction l generalizing t with
  | nil => exact h
  | cons a l ih => exact ih (bumpUsed t a) (bumpUsed_bounds t a h)

theorem foldl_bumpExcl_bounds (l : List String) (t : RepTable)
    (h : ∀ q ∈ t, 0 ≤ q.2 ∧ q.2 ≤ 1) :
    ∀ q ∈ l.foldl bumpExcl t, 0 ≤ q.2 ∧ q.2 ≤ 1 := by
  induction l generalizing t with
  | nil => exact h
  | cons a l ih => exact ih (bumpExcl t a) (bumpExcl_bounds t a h)

/-- C8: after a round, every first-seen used participant is stored at
0.5 and every known one goes up by exactly 0.1 capped at 1.0; every
first-seen excluded participant is stored at 0.3 and every known one
goes down by exactly 0.1 floored at 0.0; everybody else is untouched;
and a table whose scores lie in [0, 1] keeps every score in [0, 1]. -/
theorem c8_reputation_update (t : RepTable) (used excluded : List String)
    (hu : used.Nodup) (he : excluded.Nodup)
    (hdisj : ∀ p ∈ used, p ∉ excluded) :
    (∀ p ∈ used, lookupRep (update_reputation t used excluded) p = some
      (match lookupRep t p with
       | none => (1 / 2 : ℚ)
       | some v => min 1 (v + 1 / 10))) ∧
    (∀ p ∈ excluded, lookupRep (update_reputation t used excluded) p = some
      (match lookupRep t p with
       | none => (3 / 10 : ℚ)
       | some v => max 0 (v - 1 / 10))) ∧
    (∀ p, p ∉ used → p ∉ excluded →
      lookupRep (update_reputation t used excluded) p = lookupRep t p) ∧
    ((∀ q ∈ t, 0 ≤ q.2 ∧ q.2 ≤ 1) →
      ∀ q ∈ update_reputation t used excluded, 0 ≤ q.2 ∧ q.2 ≤ 1) := by
  refine ⟨?_, ?_, ?_, ?_⟩
  · intro p hp
    unfold update_reputation
    rw [foldl_bumpExcl_not_mem excluded _ p (hdisj p hp),
      foldl_bumpUsed_mem used t p hp hu]
  · intro p hp
    have hpu : p ∉ used := fun h => hdisj p h hp
    unfold update_reputation
    rw [foldl_bumpExcl_mem excluded _ p hp he, foldl_bumpUsed_not_mem used t p hpu]
  · intro p hpu hpe
    unfold update_reputation
    rw [foldl_bumpExcl_not_mem excluded _ p hpe, foldl_bumpUsed_not_mem used t p hpu]
  · intro hb
    exact foldl_bumpExcl_bounds excluded _ (foldl_bumpUsed_bounds used t hb)

/-- Witness for C8: table with one known participant, one new used, one
new excluded. -/
theorem c8_reputation_update_witness :
    ((["a", "b"] : List String).Nodup) ∧ ((["c"] : List String).Nodup) ∧
    (∀ p ∈ (["a", "b"] : List String), p ∉ (["c"] : List String)) ∧
    ((∀ p ∈ (["a", "b"] : List String),
      lookupRep (update_reputation [("a", 1/2)] ["a", "b"] ["c"]) p = some
        (match lookupRep [("a", 1/2)] p with
         | none => (1 / 2 : ℚ)
         | some v => min 1 (v + 1 / 10))) ∧
    (∀ p ∈ (["c"] : List String),
      lookupRep (update_reputation [("a", 1/2)] ["a", "b"] ["c"]) p = some
        (match lookupRep [("a", 1/2)] p with
         | none => (3 / 10 : ℚ)
         | some v => max 0 (v - 1 / 10))) ∧
    (∀ p, p ∉ (["a", "b"] : List String) → p ∉ (["c"] : List String) →
      lookupRep (update_reputation [("a", 1/2)] ["a", "b"] ["c"]) p =
        lookupRep [("a", 1/2)] p) ∧
    ((∀ q ∈ ([("a", 1/2)] : RepTable), 0 ≤ q.2 ∧ q.2 ≤ 1) →
      ∀ q ∈ update_reputation [("a", 1/2)] ["a", "b"] ["c"], 0 ≤ q.2 ∧ q.2 ≤ 1)) :=
  ⟨by decide, by decide, by decide,
    c8_reputation_update [("a", 1/2)] ["a", "b"] ["c"] (by decide) (by decide) (by decide)⟩

/-! The adaptive dispatcher branch structure (claims C4 and C10). -/

theorem adaptive_branches (cfg : AggConfig) (r : Round) (rep : Option RepTable)
    (byz : List String) (clean : Round)
    (hbyz : detect_byzantine r rep = byz)
    (hclean : r.filter (fun pu => pu.1 ∉ byz) = clean)
    (hmin : cfg.minParticipants ≤ r.length) :
    (clean.length < cfg.minParticipants →
      adaptive_byzantine_robust_aggregation cfg r rep = coordinate_wise_median cfg r) ∧
    (cfg.minParticipants ≤ clean.length →
      (4 * defaultF cfg r.length + 3 ≤ clean.length →
        adaptive_byzantine_robust_aggregation cfg r rep =
          (bulyan_aggregation cfg clean none).map (extendExcluded byz)) ∧
      (clean.length < 4 * defaultF cfg r.length + 3 →
        2 * defaultF cfg r.length + 3 ≤ clean.length →
        adaptive_byzantine_robust_aggregation cfg r rep =
          (krum_aggregation cfg clean none).map (extendExcluded byz)) ∧
      (clean.length < 2 * defaultF cfg r.length + 3 →
        adaptive_byzantine_robust_aggregation cfg r rep =
          (coordinate_wise_median cfg clean).map (extendExcluded byz))) := by
  subst hbyz
  subst hclean
  simp only [adaptive_byzantine_robust_aggregation]
  rw [if_neg (not_lt.2 hmin)]
  constructor
  · intro h
    rw [if_pos h]
  · intro h
    rw [if_neg (not_lt.2 h)]
    refine ⟨fun hb => ?_, fun hnb hk => ?_, fun hnk => ?_⟩
    · rw [if_pos hb]
    · rw [if_neg (by omega), if_pos hk]
    · rw [if_neg (by omega), if_neg (by omega)]

/-- C4: the adaptive dispatcher removes detector-flagged participants,
falls back to the median over the original round when fewer than
min_participants remain, and otherwise delegates to Bulyan, Krum or the
median over the clean set by comparing the clean count against the
thresholds built from f = floor(original size times the ratio). -/
theorem c4_adaptive_dispatch (cfg : AggConfig) (r : Round) (rep : Option RepTable)
    (hmin : cfg.minParticipants ≤ r.length) :
    ((r.filter (fun pu => pu.1 ∉ detect_byzantine r rep)).length < cfg.minParticipants →
      adaptive_byzantine_robust_aggregation cfg r rep = coordinate_wise_median cfg r) ∧
    (cfg.minParticipants ≤
        (r.filter (fun pu => pu.1 ∉ detect_byzantine r rep)).length →
      (4 * defaultF cfg r.length + 3 ≤
          (r.filter (fun pu => pu.1 ∉ detect_byzantine r rep)).length →
        adaptive_byzantine_robust_aggregation cfg r rep =
          (bulyan_aggregation cfg (r.filter (fun pu => pu.1 ∉ detect_byzantine r rep))
            none).map (extendExcluded (detect_byzantine r rep))) ∧
      ((r.filter (fun pu => pu.1 ∉ detect_byzantine r rep)).length <
          4 * defaultF cfg r.length + 3 →
        2 * defaultF cfg r.length + 3 ≤
          (r.filter (fun pu => pu.1 ∉ detect_byzantine r rep)).length →
        adaptive_byzantine_robust_aggregation cfg r rep =
          (krum_aggregation cfg (r.filter (fun pu => pu.1 ∉ detect_byzantine r rep))
            none).map (extendExcluded (detect_byzantine r rep))) ∧
      ((r.filter (fun pu => pu.1 ∉ detect_byzantine r rep)).length <
          2 * defaultF cfg r.length + 3 →
        adaptive_byzantine_robust_aggregation cfg r rep =
          (coordinate_wise_median cfg
            (r.filter (fun pu => pu.1 ∉ detect_byzantine r rep))).map
            (extendExcluded (detect_byzantine r rep)))) :=
  adaptive_branches cfg r rep (detect_byzantine r rep)
    (r.filter (fun pu => pu.1 ∉ detect_byzantine r rep)) rfl rfl hmin

/-- Witness for C4 at a concrete four-participant round without a
reputation snapshot. -/
theorem c4_adaptive_dispatch_witness :
    (cfg0.minParticipants ≤ rPairs.length) ∧
    (((rPairs.filter (fun pu => pu.1 ∉ detect_byzantine rPairs none)).length <
        cfg0.minParticipants →
      adaptive_byzantine_robust_aggregation cfg0 rPairs none =
        coordinate_wise_median cfg0 rPairs) ∧
    (cfg0.minParticipants ≤
        (rPairs.filter (fun pu => pu.1 ∉ detect_byzantine rPairs none)).length →
      (4 * defaultF cfg0 rPairs.length + 3 ≤
          (rPairs.filter (fun pu => pu.1 ∉ detect_byzantine rPairs none)).length →
        adaptive_byzantine_robust_aggregation cfg0 rPairs none =
          (bulyan_aggregation cfg0
            (rPairs.filter (fun pu => pu.1 ∉ detect_byzantine rPairs none))
            none).map (extendExcluded (detect_byzantine rPairs none))) ∧
      ((rPairs.filter (fun pu => pu.1 ∉ detect_byzantine rPairs none)).length <
          4 * defaultF cfg0 rPairs.length + 3 →
        2 * defaultF cfg0 rPairs.length + 3 ≤
          (rPairs.filter (fun pu => pu.1 ∉ detect_byzantine rPairs none)).length →
        adaptive_byzantine_robust_aggregation cfg0 rPairs none =
          (krum_aggregation cfg0
            (rPairs.filter (fun pu => pu.1 ∉ detect_byzantine rPairs none))
            none).map (extendExcluded (detect_byzantine rPairs none))) ∧
      ((rPairs.filter (fun pu => pu.1 ∉ detect_byzantine rPairs none)).length <
          2 * defaultF cfg0 rPairs.length + 3 →
        adaptive_byzantine_robust_aggregation cfg0 rPairs none =
          (coordinate_wise_median cfg0
            (rPairs.filter (fun pu => pu.1 ∉ detect_byzantine rPairs none))).map
            (extendExcluded (detect_byzantine rPairs none))))) :=
  ⟨by decide, c4_adaptive_dispatch cfg0 rPairs none (by decide)⟩

/-- A successful coordinate-wise median call and the shape of its result. -/
theorem coordinate_wise_median_ok (cfg : AggConfig) (p0 : String × Update) (rt : Round)
    (h : ¬((p0 :: rt).length < cfg.minParticipants)) :
    ∃ w, coordinateWiseMedianWeights (p0 :: rt) = some w ∧
      coordinate_wise_median cfg (p0 :: rt) = .ok
        { aggregated_weights := w
          method_used := .coordinateMedian
          participants_used := (p0 :: rt).map Prod.fst
          participants_excluded := []
          robustness_score := ((8 : ℝ) / 10) } := by
  obtain ⟨a, u⟩ := p0
  refine ⟨_, rfl, ?_⟩
  unfold coordinate_wise_median
  rw [if_neg h]
  rfl

/-- C10: when the degraded-mode fallback fires (fewer than
min_participants clean participants), the adaptive dispatcher returns
the median over the original, unfiltered round: every original
participant, the flagged ones included, lands in participants_used and
participants_excluded stays empty. -/
theorem c10_fallback_uses_all (cfg : AggConfig) (r : Round) (rep : Option RepTable)
    (byz : List String)
    (hbyz : detect_byzantine r rep = byz)
    (hmin : cfg.minParticipants ≤ r.length)
    (hsmall : (r.filter (fun pu => pu.1 ∉ byz)).length < cfg.minParticipants) :
    adaptive_byzantine_robust_aggregation cfg r rep = coordinate_wise_median cfg r ∧
    ∃ res, adaptive_byzantine_robust_aggregation cfg r rep = .ok res ∧
      res.participants_used = r.map Prod.fst ∧
      res.participants_excluded = [] := by
  have hfb := (adaptive_branches cfg r rep byz _ hbyz rfl hmin).1 hsmall
  refine ⟨hfb, ?_⟩
  cases r with
  | nil =>
    exfalso
    simp at hsmall hmin
    omega
  | cons p0 rt =>
    obtain ⟨w, _, hok⟩ := coordinate_wise_median_ok cfg p0 rt (not_lt.2 hmin)
    exact ⟨_, hfb.trans hok, rfl, rfl⟩

/-! Concrete evaluation of the Byzantine detector on the two-cluster
round rPairs. -/

theorem dist_u0_u6 : calculate_distance u0 u6 = 6 := by
  have hacc : distAcc u0 u6 = 36 := by
    norm_num [distAcc, u0, u6, List.find?, sumSqDiff]
  rw [calculate_distance, hacc,
    show ((36 : ℚ) : ℝ) = 6 ^ 2 by norm_num, Real.sqrt_sq (by norm_num : (0 : ℝ) ≤ 6)]

theorem dist_u6_u0 : calculate_distance u6 u0 = 6 := by
  have hacc : distAcc u6 u0 = 36 := by
    norm_num [distAcc, u0, u6, List.find?, sumSqDiff]
  rw [calculate_distance, hacc,
    show ((36 : ℚ) : ℝ) = 6 ^ 2 by norm_num, Real.sqrt_sq (by norm_num : (0 : ℝ) ≤ 6)]

theorem dist_u6_u6 : calculate_distance u6 u6 = 0 := by
  have hacc : distAcc u6 u6 = 0 := by
    norm_num [distAcc, u6, List.find?, sumSqDiff]
  simp [calculate_distance, hacc]

theorem matrix_rPairs : distance_matrix rPairs =
    [[0, 0, 6, 6], [0, 0, 6, 6], [6, 6, 0, 0], [6, 6, 0, 0]] := by
  have h0 : distance_matrix rPairs =
      [[0, calculate_distance u0 u0, calculate_distance u0 u6, calculate_distance u0 u6],
       [calculate_distance u0 u0, 0, calculate_distance u0 u6, calculate_distance u0 u6],
       [calculate_distance u6 u0, calculate_distance u6 u0, 0, calculate_distance u6 u6],
       [calculate_distance u6 u0, calculate_distance u6 u0, calculate_distance u6 u6, 0]] :=
    rfl
  rw [h0]
  simp only [dist_u0_u0, dist_u0_u6, dist_u6_u0, dist_u6_u6]

theorem sort_flat_rPairs :
    List.insertionSort (· ≤ ·)
      ([0, 0, 6, 6, 0, 0, 6, 6, 6, 6, 0, 0, 6, 6, 0, 0] : List ℝ) =
      [0, 0, 0, 0, 0, 0, 0, 0, 6, 6, 6, 6, 6, 6, 6, 6] := by
  norm_num [List.insertionSort, List.orderedInsert]

theorem eps_rPairs :
    percentileR ([0, 0, 6, 6, 0, 0, 6, 6, 6, 6, 0, 0, 6, 6, 0, 0] : List ℝ) 75 = 6 := by
  simp only [percentileR, sort_flat_rPairs]
  rw [show (([0, 0, 0, 0, 0, 0, 0, 0, 6, 6, 6, 6, 6, 6, 6, 6] : List ℝ)).length = 16
    from rfl]
  rw [show (⌊(((16 : ℕ) : ℚ) - 1) * 75 / 100⌋ : ℤ) = 11 by
    norm_num [Int.floor_eq_iff]]
  rw [show ((11 : ℤ).toNat) = 11 from rfl]
  rw [show List.getD ([0, 0, 0, 0, 0, 0, 0, 0, 6, 6, 6, 6, 6, 6, 6, 6] : List ℝ) 11 0 = 6
    from rfl]
  rw [show List.getD ([0, 0, 0, 0, 0, 0, 0, 0, 6, 6, 6, 6, 6, 6, 6, 6] : List ℝ) (11 + 1) 6 = 6
    from rfl]
  ring

theorem countP_row_low :
    List.countP (fun d => decide (d ≤ (6 : ℝ))) [0, 0, 6, 6] = 4 := by
  norm_num [List.countP_cons, List.countP_nil]

theorem countP_row_high :
    List.countP (fun d => decide (d ≤ (6 : ℝ))) [6, 6, 0, 0] = 4 := by
  norm_num [List.countP_cons, List.countP_nil]

theorem noise_rPairs :
    dbscanNoiseIdx [[0, 0, 6, 6], [0, 0, 6, 6], [6, 6, 0, 0], [6, 6, 0, 0]] 6 2 = [] := by
  simp [dbscanNoiseIdx, enumIdx, List.filter_cons, countP_row_low, countP_row_high]

theorem dbscan_flags_rPairs : dbscan_flags rPairs = [] := by
  simp only [dbscan_flags]
  rw [matrix_rPairs]
  rw [show ([[0, 0, 6, 6], [0, 0, 6, 6], [6, 6, 0, 0], [6, 6, 0, 0]] :
      List (List ℝ)).flatten =
    ([0, 0, 6, 6, 0, 0, 6, 6, 6, 6, 0, 0, 6, 6, 0, 0] : List ℝ) from rfl]
  rw [eps_rPairs, noise_rPairs]
  rfl

theorem pctQ_repOut : percentileQ (repOut.map Prod.snd) 20 = 17 / 50 := by
  rw [show repOut.map Prod.snd = [1/2, 1/2, 1/2, 1/10] from rfl]
  simp only [percentileQ]
  rw [show List.insertionSort (· ≤ ·) ([1/2, 1/2, 1/2, 1/10] : List ℚ) =
    [1/10, 1/2, 1/2, 1/2] by norm_num [List.insertionSort, List.orderedInsert]]
  rw [show (([1/10, 1/2, 1/2, 1/2] : List ℚ)).length = 4 from rfl]
  rw [show (⌊(((4 : ℕ) : ℚ) - 1) * 20 / 100⌋ : ℤ) = 0 by norm_num [Int.floor_eq_iff]]
  rw [show ((0 : ℤ).toNat) = 0 from rfl]
  rw [show List.getD ([1/10, 1/2, 1/2, 1/2] : List ℚ) 0 0 = 1/10 from rfl]
  rw [show List.getD ([1/10, 1/2, 1/2, 1/2] : List ℚ) (0 + 1) (1/10) = 1/2 from rfl]
  norm_num

theorem low_reputation_repOut : low_reputation_flags repOut = ["zz"] := by
  simp only [low_reputation_flags, pctQ_repOut]
  norm_num [repOut, List.filter_cons]

theorem detect_repOut : detect_byzantine rPairs (some repOut) = ["zz"] := by
  simp only [detect_byzantine]
  rw [if_neg (by decide)]
  rw [show (if repOut = [] then dbscan_flags rPairs
      else dbscan_flags rPairs ++ low_reputation_flags repOut) =
    dbscan_flags rPairs ++ low_reputation_flags repOut from by
      rw [if_neg (by decide)]]
  rw [dbscan_flags_rPairs, low_reputation_repOut]
  decide

theorem pctQ_repLow : percentileQ (repLow.map Prod.snd) 20 = 21 / 50 := by
  rw [show repLow.map Prod.snd =
    [1/10, 1/10, 9/10, 9/10, 9/10, 9/10, 9/10, 9/10] from rfl]
  simp only [percentileQ]
  rw [show List.insertionSort (· ≤ ·)
      ([1/10, 1/10, 9/10, 9/10, 9/10, 9/10, 9/10, 9/10] : List ℚ) =
    [1/10, 1/10, 9/10, 9/10, 9/10, 9/10, 9/10, 9/10] by
      norm_num [List.insertionSort, List.orderedInsert]]
  rw [show (([1/10, 1/10, 9/10, 9/10, 9/10, 9/10, 9/10, 9/10] : List ℚ)).length = 8
    from rfl]
  rw [show (⌊(((8 : ℕ) : ℚ) - 1) * 20 / 100⌋ : ℤ) = 1 by norm_num [Int.floor_eq_iff]]
  rw [show ((1 : ℤ).toNat) = 1 from rfl]
  rw [show List.getD ([1/10, 1/10, 9/10, 9/10, 9/10, 9/10, 9/10, 9/10] : List ℚ) 1 0 =
    1/10 from rfl]
  rw [show List.getD ([1/10, 1/10, 9/10, 9/10, 9/10, 9/10, 9/10, 9/10] : List ℚ) (1 + 1)
    (1/10) = 9/10 from rfl]
  norm_num

theorem low_reputation_repLow : low_reputation_flags repLow = ["a", "b"] := by
  simp only [low_reputation_flags, pctQ_repLow]
  norm_num [repLow, List.filter_cons]

theorem detect_repLow : detect_byzantine rPairs (some repLow) = ["a", "b"] := by
  simp only [detect_byzantine]
  rw [if_neg (by decide)]
  rw [show (if repLow = [] then dbscan_flags rPairs
      else dbscan_flags rPairs ++ low_reputation_flags repLow) =
    dbscan_flags rPairs ++ low_reputation_flags repLow from by
      rw [if_neg (by decide)]]
  rw [dbscan_flags_rPairs, low_reputation_repLow]
  decide

theorem detect_rPairs_none : detect_byzantine rPairs none = [] := by
  simp only [detect_byzantine]
  rw [if_neg (by decide), dbscan_flags_rPairs]
  rfl

/-- Witness for C10: reputation flags remove a and b, only two clean
participants remain, and the fallback median over the original round
uses all four participants and excludes nobody. -/
theorem c10_fallback_uses_all_witness :
    detect_byzantine rPairs (some repLow) = ["a", "b"] ∧
    (cfg0.minParticipants ≤ rPairs.length) ∧
    ((rPairs.filter (fun pu => pu.1 ∉ (["a", "b"] : List String))).length <
      cfg0.minParticipants) ∧
    (adaptive_byzantine_robust_aggregation cfg0 rPairs (some repLow) =
        coordinate_wise_median cfg0 rPairs ∧
      ∃ res, adaptive_byzantine_robust_aggregation cfg0 rPairs (some repLow) = .ok res ∧
        res.participants_used = rPairs.map Prod.fst ∧
        res.participants_excluded = []) :=
  ⟨detect_repLow, by decide, by decide,
    c10_fallback_uses_all cfg0 rPairs (some repLow) ["a", "b"] detect_repLow
      (by decide) (by decide)⟩

/-! Partition invariants of every method (claim C7). -/

theorem enumIdx_map_snd (l : List α) (n : ℕ) : (enumIdx n l).map Prod.snd = l := by
  induction l generalizing n with
  | nil => rfl
  | cons a t ih => simp [enumIdx, ih]

theorem krum_scores_map_fst (r : Round) (f : ℕ) :
    (krum_scores r f).map Prod.fst = r.map Prod.fst := by
  unfold krum_scores
  rw [List.map_map]
  have h1 : (Prod.fst ∘ fun ip : ℕ × (String × Update) =>
      (ip.2.1, krumScoreOf r f ip.1 ip.2.2)) = (fun ip => ip.2.1) := rfl
  rw [h1, show (fun ip : ℕ × (String × Update) => ip.2.1) =
    (Prod.fst ∘ Prod.snd) from rfl, ← List.map_map, enumIdx_map_snd]

theorem firstMinBy_mem (l : List (String × ℝ)) (res : String × ℝ)
    (h : firstMinBy l = some res) : res ∈ l := by
  match l with
  | [] => exact Option.noConfusion h
  | s :: t =>
    obtain ⟨res2, k, hfm, hget, _, _⟩ := firstMinBy_spec s t
    rw [h] at hfm
    rw [Option.some.inj hfm]
    exact List.getElem?_mem hget

theorem krum_ok_shape (cfg : AggConfig) (r : Round) (fOpt : Option ℕ)
    (res : AggregationResult) (h : krum_aggregation cfg r fOpt = .ok res) :
    ∃ sel, sel ∈ r.map Prod.fst ∧ res.participants_used = [sel] ∧
      res.participants_excluded = (r.map Prod.fst).filter (fun p => p ≠ sel) := by
  simp only [krum_aggregation] at h
  split at h
  · exact Except.noConfusion h
  · split at h
    · exact Except.noConfusion h
    · next sel heq =>
      refine ⟨sel.1, ?_, ?_, ?_⟩
      · have hm := firstMinBy_mem _ sel heq
        have := List.mem_map_of_mem Prod.fst hm
        rw [krum_scores_map_fst] at this
        exact this
      · rw [← Except.ok.inj h]
      · rw [← Except.ok.inj h]

theorem mem_map_fst_of_filter (l : Round) (q : String × Update → Bool) (p : String)
    (h : p ∈ (l.filter q).map Prod.fst) : p ∈ l.map Prod.fst := by
  obtain ⟨e, he, hep⟩ := List.mem_map.1 h
  exact List.mem_map.2 ⟨e, List.mem_of_mem_filter he, hep⟩

theorem bulyanSelect_subset (cfg : AggConfig) (kf : ℕ) :
    ∀ (fuel : ℕ) (rem : Round) (p : String),
      p ∈ bulyanSelectAux cfg kf fuel rem → p ∈ rem.map Prod.fst := by
  intro fuel
  induction fuel with
  | zero => intro rem p hp; exact absurd hp (by simp [bulyanSelectAux])
  | succ n ih =>
    intro rem p hp
    unfold bulyanSelectAux at hp
    split at hp
    · simp at hp
    · split at hp
      · simp at hp
      · next kres heq =>
        split at hp
        · simp at hp
        · next sel rest husd =>
          rcases List.mem_cons.1 hp with hps | hps
          · obtain ⟨sel2, hmem, hused, _⟩ := krum_ok_shape cfg rem (some kf) kres heq
            rw [husd] at hused
            rw [hps, List.cons.inj hused |>.1]
            exact hmem
          · exact mem_map_fst_of_filter _ _ p (ih _ p hps)

theorem bulyan_ok_inv (cfg : AggConfig) (r : Round) (fOpt : Option ℕ)
    (res : AggregationResult) (h : bulyan_aggregation cfg r fOpt = .ok res) :
    ResultPartitionInv r res := by
  simp only [bulyan_aggregation] at h
  split at h
  · exact Except.noConfusion h
  · split at h
    · exact Except.noConfusion h
    · rw [← Except.ok.inj h]
      refine ⟨?_, ?_, ?_⟩
      · intro p hp
        exact bulyanSelect_subset cfg _ _ r p hp
      · intro p hp
        exact List.mem_of_mem_filter hp
      · intro p hp hpe
        have := List.of_mem_filter hpe
        simp at this
        exact this hp

theorem median_ok_inv (cfg : AggConfig) (r : Round) (res : AggregationResult)
    (h : coordinate_wise_median cfg r = .ok res) : ResultPartitionInv r res := by
  simp only [coordinate_wise_median] at h
  split at h
  · exact Except.noConfusion h
  · split at h
    · exact Except.noConfusion h
    · rw [← Except.ok.inj h]
      exact ⟨fun p hp => hp, fun p hp => absurd hp (by simp), fun p _ hp => absurd hp (by simp)⟩

theorem trimmed_ok_inv (cfg : AggConfig) (r : Round) (tr : ℚ) (res : AggregationResult)
    (h : trimmed_mean_aggregation cfg r tr = .ok res) : ResultPartitionInv r res := by
  simp only [trimmed_mean_aggregation] at h
  split at h
  · exact Except.noConfusion h
  · split at h
    · exact Except.noConfusion h
    · rw [← Except.ok.inj h]
      exact ⟨fun p hp => hp, fun p hp => absurd hp (by simp), fun p _ hp => absurd hp (by simp)⟩

theorem except_map_ok {ε α β : Type} (e : Except ε α) (f : α → β) (b : β)
    (h : e.map f = .ok b) : ∃ a, e = .ok a ∧ f a = b := by
  cases e with
  | error x => exact Except.noConfusion h
  | ok a => exact ⟨a, rfl, Except.ok.inj h⟩

theorem enumIdx_fst_lt (l : List α) : ∀ (n : ℕ) (ip : ℕ × α),
    ip ∈ enumIdx n l → ip.1 < n + l.length := by
  induction l with
  | nil => intro n ip hip; simp [enumIdx] at hip
  | cons a t ih =>
    intro n ip hip
    rcases List.mem_cons.1 hip with h | h
    · rw [h]; simp
    · have := ih (n + 1) ip h
      simp at this ⊢
      omega

theorem dbscan_flags_subset (r : Round) (p : String) (hp : p ∈ dbscan_flags r) :
    p ∈ r.map Prod.fst := by
  simp only [dbscan_flags] at hp
  obtain ⟨i, hi, hip⟩ := List.mem_map.1 hp
  simp only [dbscanNoiseIdx] at hi
  obtain ⟨ir, hir, hiri⟩ := List.mem_map.1 hi
  have hmemE : ir ∈ enumIdx 0 (distance_matrix r) := List.mem_of_mem_filter hir
  have hlt : ir.1 < 0 + (distance_matrix r).length := enumIdx_fst_lt _ 0 ir hmemE
  have hmlen : (distance_matrix r).length = r.length := by
    simp [distance_matrix, enumIdx_length]
  rw [hmlen] at hlt
  have hi_lt : i < r.length := by rw [← hiri]; omega
  rw [← hip]
  have hgd : r.getD i ("", []) = r.get ⟨i, hi_lt⟩ := by
    rw [List.getD_eq_getElem?_getD, List.getElem?_eq_getElem hi_lt]
    rfl
  rw [hgd]
  exact List.mem_map_of_mem Prod.fst (List.get_mem _ _ _)

theorem low_reputation_subset (t : RepTable) (p : String)
    (hp : p ∈ low_reputation_flags t) : p ∈ t.map Prod.fst := by
  simp only [low_reputation_flags] at hp
  obtain ⟨e, he, hep⟩ := List.mem_map.1 hp
  exact List.mem_map.2 ⟨e, List.mem_of_mem_filter he, hep⟩

theorem detect_subset (r : Round) (rep : Option RepTable) (p : String)
    (hp : p ∈ detect_byzantine r rep) :
    p ∈ r.map Prod.fst ∨ ∃ t, rep = some t ∧ p ∈ t.map Prod.fst := by
  simp only [detect_byzantine] at hp
  split at hp
  · simp at hp
  · have hp2 := List.dedup_subset _ hp
    match rep, hp2 with
    | none, hp2 => exact Or.inl (dbscan_flags_subset r p hp2)
    | some t, hp2 =>
      have hp3 : p ∈ (if t = [] then dbscan_flags r
          else dbscan_flags r ++ low_reputation_flags t) := hp2
      by_cases ht : t = []
      · rw [if_pos ht] at hp3
        exact Or.inl (dbscan_flags_subset r p hp3)
      · rw [if_neg ht] at hp3
        rcases List.mem_append.1 hp3 with h2 | h2
        · exact Or.inl (dbscan_flags_subset r p h2)
        · exact Or.inr ⟨t, rfl, low_reputation_subset t p h2⟩

theorem clean_mem_not_byz (r : Round) (byz : List String) (p : String)
    (hp : p ∈ (r.filter (fun pu => pu.1 ∉ byz)).map Prod.fst) :
    p ∈ r.map Prod.fst ∧ p ∉ byz := by
  obtain ⟨e, he, hep⟩ := List.mem_map.1 hp
  refine ⟨List.mem_map.2 ⟨e, List.mem_of_mem_filter he, hep⟩, ?_⟩
  have := List.of_mem_filter he
  simp at this
  rw [← hep]
  exact this

theorem adaptive_ok_inv (cfg : AggConfig) (r : Round) (rep : Option RepTable)
    (res : AggregationResult)
    (h : adaptive_byzantine_robust_aggregation cfg r rep = .ok res) :
    (∀ p ∈ res.participants_used, p ∈ r.map Prod.fst) ∧
    (∀ p ∈ res.participants_used, p ∉ res.participants_excluded) ∧
    (∀ p ∈ res.participants_excluded,
      p ∈ r.map Prod.fst ∨ ∃ t, rep = some t ∧ p ∈ t.map Prod.fst) := by
  simp only [adaptive_byzantine_robust_aggregation] at h
  split at h
  · exact Except.noConfusion h
  · split at h
    · obtain ⟨h1, h2, h3⟩ := median_ok_inv cfg r res h
      exact ⟨h1, fun p hp => h3 p hp, fun p hp => Or.inl (h2 p hp)⟩
    · obtain ⟨res0, hres0, hext⟩ := except_map_ok _ _ _ h
      have hres : res = extendExcluded (detect_byzantine r rep) res0 := hext.symm
      have hused : res.participants_used = res0.participants_used := by
        rw [hres]; rfl
      have hexcl : res.participants_excluded =
          res0.participants_excluded ++ detect_byzantine r rep := by
        rw [hres]; rfl
      have hinv : ResultPartitionInv (r.filter
          (fun pu => pu.1 ∉ detect_byzantine r rep)) res0 := by
        split at hres0
        · exact bulyan_ok_inv cfg _ none res0 hres0
        · split at hres0
          · obtain ⟨sel, hsel, hu, he⟩ := krum_ok_shape cfg _ none res0 hres0
            refine ⟨?_, ?_, ?_⟩
            · intro p hp
              rw [hu] at hp
              rcases List.mem_cons.1 hp with h2 | h2
              · exact h2 ▸ hsel
              · simp at h2
            · intro p hp
              rw [he] at hp
              exact List.mem_of_mem_filter hp
            · intro p hp hpe
              rw [hu] at hp
              rw [he] at hpe
              have hne := List.of_mem_filter hpe
              simp at hne hp
              exact hne hp
          · exact median_ok_inv cfg _ res0 hres0
      obtain ⟨hi1, hi2, hi3⟩ := hinv
      refine ⟨?_, ?_, ?_⟩
      · intro p hp
        rw [hused] at hp
        exact (clean_mem_not_byz r _ p (hi1 p hp)).1
      · intro p hp
        rw [hused] at hp
        rw [hexcl]
        intro hmem
        rcases List.mem_append.1 hmem with h2 | h2
        · exact hi3 p hp h2
        · exact (clean_mem_not_byz r _ p (hi1 p hp)).2 h2
      · intro p hp
        rw [hexcl] at hp
        rcases List.mem_append.1 hp with h2 | h2
        · exact Or.inl (clean_mem_not_byz r _ p (hi2 p h2)).1
        · exact detect_subset r rep p h2

theorem krum_ok_inv (cfg : AggConfig) (r : Round) (fOpt : Option ℕ)
    (res : AggregationResult) (h : krum_aggregation cfg r fOpt = .ok res) :
    ResultPartitionInv r res := by
  obtain ⟨sel, hsel, hu, he⟩ := krum_ok_shape cfg r fOpt res h
  refine ⟨?_, ?_, ?_⟩
  · intro p hp
    rw [hu] at hp
    rcases List.mem_cons.1 hp with h2 | h2
    · exact h2 ▸ hsel
    · simp at h2
  · intro p hp
    rw [he] at hp
    exact List.mem_of_mem_filter hp
  · intro p hp hpe
    rw [hu] at hp
    rw [he] at hpe
    have hne := List.of_mem_filter hpe
    simp at hne hp
    exact hne hp

/-- C7 amended: for Krum, Bulyan, the coordinate-wise median and the
trimmed mean, participants_used and participants_excluded are disjoint
and drawn from the round; for the adaptive dispatcher the used list is
still drawn from the round and disjoint from the excluded list, but the
excluded list may additionally contain low-reputation ids taken from
the supplied reputation snapshot that are not in the round. -/
theorem c7_partition_amended (cfg : AggConfig) (r : Round) (fOpt : Option ℕ) (tr : ℚ)
    (rep : Option RepTable) (res : AggregationResult) :
    (krum_aggregation cfg r fOpt = .ok res → ResultPartitionInv r res) ∧
    (bulyan_aggregation cfg r fOpt = .ok res → ResultPartitionInv r res) ∧
    (coordinate_wise_median cfg r = .ok res → ResultPartitionInv r res) ∧
    (trimmed_mean_aggregation cfg r tr = .ok res → ResultPartitionInv r res) ∧
    (adaptive_byzantine_robust_aggregation cfg r rep = .ok res →
      (∀ p ∈ res.participants_used, p ∈ r.map Prod.fst) ∧
      (∀ p ∈ res.participants_used, p ∉ res.participants_excluded) ∧
      (∀ p ∈ res.participants_excluded,
        p ∈ r.map Prod.fst ∨ ∃ t, rep = some t ∧ p ∈ t.map Prod.fst)) :=
  ⟨krum_ok_inv cfg r fOpt res, bulyan_ok_inv cfg r fOpt res, median_ok_inv cfg r res,
    trimmed_ok_inv cfg r tr res, adaptive_ok_inv cfg r rep res⟩

/-- Witness for the amended C7 on a concrete successful median call. -/
theorem c7_partition_amended_witness :
    coordinate_wise_median cfg0 rABC = .ok
      { aggregated_weights := [("layer1", [(0 : ℚ)])]
        method_used := .coordinateMedian
        participants_used := ["a", "b", "c"]
        participants_excluded := []
        robustness_score := ((8 : ℝ) / 10) } ∧
    ResultPartitionInv rABC
      { aggregated_weights := [("layer1", [(0 : ℚ)])]
        method_used := .coordinateMedian
        participants_used := ["a", "b", "c"]
        participants_excluded := []
        robustness_score := ((8 : ℝ) / 10) } :=
  ⟨rfl, (c7_partition_amended cfg0 rABC none 0 none _).2.2.1 rfl⟩

theorem medianQ_0066 : medianQ [0, 0, 6, 6] = 3 := by
  simp only [medianQ]
  rw [show List.insertionSort (· ≤ ·) ([0, 0, 6, 6] : List ℚ) = [0, 0, 6, 6] from by
    norm_num [List.insertionSort, List.orderedInsert]]
  rw [show (([0, 0, 6, 6] : List ℚ)).length = 4 from rfl]
  rw [if_neg (by norm_num)]
  rw [show List.getD ([0, 0, 6, 6] : List ℚ) (4 / 2 - 1) 0 = 0 from rfl]
  rw [show List.getD ([0, 0, 6, 6] : List ℚ) (4 / 2) 0 = 6 from rfl]
  norm_num

theorem median_rPairs : coordinate_wise_median cfg0 rPairs = .ok
    { aggregated_weights := [("layer1", [medianQ [0, 0, 6, 6]])]
      method_used := .coordinateMedian
      participants_used := ["a", "b", "c", "d"]
      participants_excluded := []
      robustness_score := ((8 : ℝ) / 10) } := rfl

/-- C7 counterexample: with a reputation snapshot naming the outside
participant zz at the lowest score, the adaptive dispatcher returns a
result whose participants_excluded contains zz, an id that is not one
of the round's input participant ids. -/
theorem c7_round_subset_counterexample :
    adaptive_byzantine_robust_aggregation cfg0 rPairs (some repOut) = .ok
      { aggregated_weights := [("layer1", [(3 : ℚ)])]
        method_used := .coordinateMedian
        participants_used := ["a", "b", "c", "d"]
        participants_excluded := ["zz"]
        robustness_score := ((8 : ℝ) / 10) } ∧
    "zz" ∈ (["zz"] : List String) ∧
    "zz" ∉ rPairs.map Prod.fst := by
  have hclean : rPairs.filter (fun pu => pu.1 ∉ (["zz"] : List String)) = rPairs := rfl
  have hbr := (adaptive_branches cfg0 rPairs (some repOut) ["zz"] rPairs
    detect_repOut hclean (by decide)).2 (by decide)
  have hf : defaultF cfg0 rPairs.length = 1 := by
    rw [show rPairs.length = 4 from rfl]
    norm_num [defaultF, cfg0, Rat.floor_def']
  have h3 := hbr.2.2 (by rw [hf]; decide)
  refine ⟨?_, by decide, by decide⟩
  rw [h3, median_rPairs, medianQ_0066]
  rfl

/-! Trimmed mean: per-layer ranking versus whole-update ranking
(claim C5). -/

theorem tensorNorm_eval (t : Tensor) (q : ℚ) (v : ℝ)
    (hq : (t.map (fun a => a ^ 2)).sum = q) (hv : ((q : ℚ) : ℝ) = v ^ 2)
    (hv0 : 0 ≤ v) : tensorNorm t = v := by
  rw [tensorNorm, hq, hv, Real.sqrt_sq hv0]

theorem updateNorm_eval (m : Update) (q : ℚ) (v : ℝ)
    (hq : m.foldl (fun acc lw => acc + (lw.2.map (fun a => a ^ 2)).sum) 0 = q)
    (hv : ((q : ℚ) : ℝ) = v ^ 2) (hv0 : 0 ≤ v) : updateNorm m = v := by
  rw [updateNorm, hq, hv, Real.sqrt_sq hv0]

theorem tnorm0 : tensorNorm [(0 : ℚ)] = 0 :=
  tensorNorm_eval [0] 0 0 (by norm_num) (by norm_num) (by norm_num)

theorem tnorm3 : tensorNorm [(3 : ℚ)] = 3 :=
  tensorNorm_eval [3] 9 3 (by norm_num) (by norm_num) (by norm_num)

theorem tnorm4 : tensorNorm [(4 : ℚ)] = 4 :=
  tensorNorm_eval [4] 16 4 (by norm_num) (by norm_num) (by norm_num)

theorem normU_0 : updateNorm ((rTrim[0]?.getD ("", [])).2) = 4 := by
  rw [show ((rTrim[0]?.getD ("", [])).2) = up1 from rfl]
  exact updateNorm_eval up1 16 4 (by norm_num [up1]) (by norm_num) (by norm_num)

theorem normU_1 : updateNorm ((rTrim[1]?.getD ("", [])).2) = 3 := by
  rw [show ((rTrim[1]?.getD ("", [])).2) = up2 from rfl]
  exact updateNorm_eval up2 9 3 (by norm_num [up2]) (by norm_num) (by norm_num)

theorem normU_2 : updateNorm ((rTrim[2]?.getD ("", [])).2) = 5 := by
  rw [show ((rTrim[2]?.getD ("", [])).2) = up3 from rfl]
  exact updateNorm_eval up3 25 5 (by norm_num [up3]) (by norm_num) (by norm_num)

theorem argsort_L1 : argsortByTensorNorm ([[0], [3], [4]] : List Tensor) = [0, 1, 2] := by
  simp only [argsortByTensorNorm]
  rw [show List.range (([[0], [3], [4]] : List Tensor)).length = [0, 1, 2] from rfl]
  norm_num [List.insertionSort, List.orderedInsert, tnorm0, tnorm3, tnorm4]

theorem argsort_L2 : argsortByTensorNorm ([[4], [0], [3]] : List Tensor) = [1, 2, 0] := by
  simp only [argsortByTensorNorm]
  rw [show List.range (([[4], [0], [3]] : List Tensor)).length = [0, 1, 2] from rfl]
  norm_num [List.insertionSort, List.orderedInsert, tnorm0, tnorm3, tnorm4]

theorem argsort_up : argsortByUpdateNorm rTrim = [1, 0, 2] := by
  simp only [argsortByUpdateNorm]
  rw [show List.range rTrim.length = [0, 1, 2] from rfl]
  norm_num [List.insertionSort, List.orderedInsert, normU_0, normU_1, normU_2]

theorem ta_L1 : trim_and_average ([[0], [3], [4]] : List Tensor) 1 = [3] := by
  simp only [trim_and_average]
  rw [if_neg (by norm_num), argsort_L1]
  rw [show ((([0, 1, 2] : List ℕ).drop 1).take (([0, 1, 2] : List ℕ).length - 2 * 1)).map
    (fun i => ([[0], [3], [4]] : List Tensor).getD i []) = [[(3 : ℚ)]] from rfl]
  rw [show meanTensors [[(3 : ℚ)]] = [meanQ [(3 : ℚ)]] from rfl]
  rw [show meanQ [(3 : ℚ)] = 3 from by norm_num [meanQ]]

theorem ta_L2 : trim_and_average ([[4], [0], [3]] : List Tensor) 1 = [3] := by
  simp only [trim_and_average]
  rw [if_neg (by norm_num), argsort_L2]
  rw [show ((([1, 2, 0] : List ℕ).drop 1).take (([1, 2, 0] : List ℕ).length - 2 * 1)).map
    (fun i => ([[4], [0], [3]] : List Tensor).getD i []) = [[(3 : ℚ)]] from rfl]
  rw [show meanTensors [[(3 : ℚ)]] = [meanQ [(3 : ℚ)]] from rfl]
  rw [show meanQ [(3 : ℚ)] = 3 from by norm_num [meanQ]]

theorem nTrim_rTrim : (Rat.floor ((rTrim.length : ℚ) * (2 / 5))).toNat = 1 := by
  rw [show rTrim.length = 3 from rfl]
  norm_num [Rat.floor_def']

theorem trimmed_rTrim_code : trimmed_mean_aggregation cfg0 rTrim (2 / 5) = .ok
    { aggregated_weights := [("layer1", [(3 : ℚ)]), ("layer2", [(3 : ℚ)])]
      method_used := .trimmedMean
      participants_used := ["p1", "p2", "p3"]
      participants_excluded := []
      robustness_score := ((7 : ℝ) / 10) } := by
  have hmatch : trimmed_mean_aggregation cfg0 rTrim (2 / 5) = .ok
      ({ aggregated_weights :=
          [("layer1", trim_and_average ([[0], [3], [4]] : List Tensor) 1),
           ("layer2", trim_and_average ([[4], [0], [3]] : List Tensor) 1)]
         method_used := .trimmedMean
         participants_used := ["p1", "p2", "p3"]
         participants_excluded := []
         robustness_score := ((7 : ℝ) / 10) } : AggregationResult) := by
    simp only [trimmed_mean_aggregation]
    rw [if_neg (by decide)]
    simp only [nTrim_rTrim]
    rfl
  rw [hmatch, ta_L1, ta_L2]

theorem trimmed_rTrim_spec : trimmed_mean_whole_update_norm cfg0 rTrim (2 / 5) = .ok
    { aggregated_weights := [("layer1", [(0 : ℚ)]), ("layer2", [(4 : ℚ)])]
      method_used := .trimmedMean
      participants_used := ["p1", "p2", "p3"]
      participants_excluded := []
      robustness_score := ((7 : ℝ) / 10) } := by
  have hkept : (if (1 : ℕ) = 0 then List.range rTrim.length
      else ((argsortByUpdateNorm rTrim).drop 1).take (rTrim.length - 2 * 1)) = [0] := by
    rw [if_neg (by norm_num), argsort_up]
    rfl
  have hmatch : trimmed_mean_whole_update_norm cfg0 rTrim (2 / 5) = .ok
      ({ aggregated_weights :=
          [("layer1", meanTensors [[(0 : ℚ)]]), ("layer2", meanTensors [[(4 : ℚ)]])]
         method_used := .trimmedMean
         participants_used := ["p1", "p2", "p3"]
         participants_excluded := []
         robustness_score := ((7 : ℝ) / 10) } : AggregationResult) := by
    simp only [trimmed_mean_whole_update_norm]
    rw [if_neg (by decide)]
    simp only [nTrim_rTrim]
    simp only [hkept]
    rfl
  rw [hmatch,
    show meanTensors [[(0 : ℚ)]] = [meanQ [(0 : ℚ)]] from rfl,
    show meanTensors [[(4 : ℚ)]] = [meanQ [(4 : ℚ)]] from rfl,
    show meanQ [(0 : ℚ)] = 0 from by norm_num [meanQ],
    show meanQ [(4 : ℚ)] = 4 from by norm_num [meanQ]]

/-- C5 counterexample: on a three-participant, two-layer round with
trim_ratio 0.4, the source trims by per-layer norms and returns [3] for
both layers, while the whole-update-norm ranking of the claim keeps
only the middle-total-norm participant and would return [0] and [4]. -/
theorem c5_per_layer_counterexample :
    trimmed_mean_aggregation cfg0 rTrim (2 / 5) = .ok
      { aggregated_weights := [("layer1", [(3 : ℚ)]), ("layer2", [(3 : ℚ)])]
        method_used := .trimmedMean
        participants_used := ["p1", "p2", "p3"]
        participants_excluded := []
        robustness_score := ((7 : ℝ) / 10) } ∧
    trimmed_mean_whole_update_norm cfg0 rTrim (2 / 5) = .ok
      { aggregated_weights := [("layer1", [(0 : ℚ)]), ("layer2", [(4 : ℚ)])]
        method_used := .trimmedMean
        participants_used := ["p1", "p2", "p3"]
        participants_excluded := []
        robustness_score := ((7 : ℝ) / 10) } ∧
    ([("layer1", [(3 : ℚ)]), ("layer2", [(3 : ℚ)])] : Update) ≠
      [("layer1", [(0 : ℚ)]), ("layer2", [(4 : ℚ)])] :=
  ⟨trimmed_rTrim_code, trimmed_rTrim_spec, by norm_num⟩

/-- C5 amended: the trimmed mean keeps every participant in
participants_used, excludes nobody, and aggregates each layer by
dropping the k = floor(n times trim_ratio) lowest-norm and highest-norm
participants of a ranking computed from that layer's own tensor norms
(a separate ranking per layer), averaging the rest; with k = 0 it is
the plain layer-wise mean. -/
theorem c5_trimmed_mean_amended (cfg : AggConfig) (r : Round) (t : ℚ)
    (hmin : cfg.minParticipants ≤ r.length) (hne : r ≠ []) :
    ∃ res, trimmed_mean_aggregation cfg r t = .ok res ∧
      res.method_used = .trimmedMean ∧
      res.participants_used = r.map Prod.fst ∧
      res.participants_excluded = [] ∧
      (∀ q0 qt, r = q0 :: qt →
        res.aggregated_weights = q0.2.map (fun lw =>
          (lw.1, trim_and_average (r.map (fun pu => lookupTensor pu.2 lw.1))
            (Rat.floor ((r.length : ℚ) * t)).toNat))) ∧
      (∀ ws : List Tensor, trim_and_average ws 0 = meanTensors ws) ∧
      (∀ (ws : List Tensor) (k : ℕ), k ≠ 0 → ∃ idxs : List ℕ,
        idxs.Perm (List.range ws.length) ∧
        List.Sorted (fun i j => tensorNorm (ws.getD i []) ≤ tensorNorm (ws.getD j [])) idxs ∧
        trim_and_average ws k =
          meanTensors (((idxs.drop k).take (idxs.length - 2 * k)).map
            (fun i => ws.getD i []))) := by
  match r, hmin, hne with
  | (a, u) :: rt, hmin, _ =>
  refine ⟨{ aggregated_weights := u.map (fun lw =>
              (lw.1, trim_and_average (((a, u) :: rt).map (fun pu => lookupTensor pu.2 lw.1))
                (Rat.floor (((((a, u) :: rt) : Round).length : ℚ) * t)).toNat))
            method_used := .trimmedMean
            participants_used := (((a, u) :: rt) : Round).map Prod.fst
            participants_excluded := []
            robustness_score := ((7 : ℝ) / 10) }, ?_, rfl, rfl, rfl, ?_, ?_, ?_⟩
  · simp only [trimmed_mean_aggregation]
    rw [if_neg (not_lt.2 hmin)]
  · intro q0 qt heq
    obtain ⟨h1, h2⟩ := List.cons.inj heq
    rw [← h1]
  · intro ws
    simp [trim_and_average]
  · intro ws k hk
    refine ⟨argsortByTensorNorm ws, List.perm_insertionSort _ _, ?_, ?_⟩
    · haveI hT : IsTotal ℕ
          (fun i j => tensorNorm (ws.getD i []) ≤ tensorNorm (ws.getD j [])) :=
        ⟨fun x y => le_total _ _⟩
      haveI hTr : IsTrans ℕ
          (fun i j => tensorNorm (ws.getD i []) ≤ tensorNorm (ws.getD j [])) :=
        ⟨fun x y z hxy hyz => le_trans hxy hyz⟩
      exact List.sorted_insertionSort _ _
    · simp only [trim_and_average]
      rw [if_neg hk]

/-- Witness for the amended C5 at the concrete three-participant round. -/
theorem c5_trimmed_mean_amended_witness :
    (cfg0.minParticipants ≤ rTrim.length) ∧ (rTrim ≠ []) ∧
    (∃ res, trimmed_mean_aggregation cfg0 rTrim (2 / 5) = .ok res ∧
      res.method_used = .trimmedMean ∧
      res.participants_used = rTrim.map Prod.fst ∧
      res.participants_excluded = [] ∧
      (∀ q0 qt, rTrim = q0 :: qt →
        res.aggregated_weights = q0.2.map (fun lw =>
          (lw.1, trim_and_average (rTrim.map (fun pu => lookupTensor pu.2 lw.1))
            (Rat.floor ((rTrim.length : ℚ) * (2 / 5))).toNat))) ∧
      (∀ ws : List Tensor, trim_and_average ws 0 = meanTensors ws) ∧
      (∀ (ws : List Tensor) (k : ℕ), k ≠ 0 → ∃ idxs : List ℕ,
        idxs.Perm (List.range ws.length) ∧
        List.Sorted (fun i j => tensorNorm (ws.getD i []) ≤ tensorNorm (ws.getD j [])) idxs ∧
        trim_and_average ws k =
          meanTensors (((idxs.drop k).take (idxs.length - 2 * k)).map
            (fun i => ws.getD i [])))) :=
  ⟨by decide, by decide, c5_trimmed_mean_amended cfg0 rTrim (2 / 5) (by decide) (by decide)⟩

end ByzantineRobust
